import Mathlib

/-!
Verification development for the foodieai nutrition backend.

Shallow embedding of the core components named by the specification:
the nutrition aggregator and TDEE calculator (pure functions over
rationals, idealizing IEEE doubles as exact rationals), the recipe
draft lifecycle with its idempotency mechanism (explicit database
state passing, with transaction boundaries made explicit where a
claim is about atomicity), and the MCP JSON-RPC router together with
the schema validator and coercer (JSON values as an inductive type).
-/

namespace Foodie

/-- JS Math.round: rounds half toward positive infinity. -/
def jsRound (q : ℚ) : ℤ := ⌊q + 1/2⌋

/-- Executable model of the JS String.prototype.trim: drop whitespace
from both ends. -/
def jsTrim (s : String) : String :=
  String.mk (((s.data.dropWhile Char.isWhitespace).reverse.dropWhile
    Char.isWhitespace).reverse)

/-- Executable model of the JS String.prototype.toLowerCase. -/
def jsToLower (s : String) : String :=
  String.mk (s.data.map Char.toLower)

/-! ## Nutrition aggregator

Embedding of the static method calculateNutritionTotals of
RecipeDraftsService (src/recipes/recipe-drafts.service.ts).
Numbers are idealized as rationals. -/

/-- Macro totals: calories, protein, fat, carbs. -/
structure NutTotals where
  calories : ℚ
  protein : ℚ
  fat : ℚ
  carbs : ℚ
  deriving Repr, DecidableEq

/-- Per-100 macro values of a linked catalog product (all present). -/
structure ProductMacros where
  kcal100 : ℚ
  protein100 : ℚ
  fat100 : ℚ
  carbs100 : ℚ
  deriving Repr, DecidableEq

/-- Input row of calculateNutritionTotals: an ingredient with optional
amount, unit, inline per-100 snapshot values and optional linked product. -/
structure NutIngredient where
  amount : Option ℚ
  unit : Option String
  kcal100 : Option ℚ
  protein100 : Option ℚ
  fat100 : Option ℚ
  carbs100 : Option ℚ
  product : Option ProductMacros
  deriving Repr, DecidableEq

/-- The unitToGram lookup table from the source: g, gram, grams, kg, ml, l.
The source indexes the table with the lowercased unit string. -/
def unitToGram (u : String) : Option ℚ :=
  if u = "g" then some 1
  else if u = "gram" then some 1
  else if u = "grams" then some 1
  else if u = "kg" then some 1000
  else if u = "ml" then some 1
  else if u = "l" then some 1000
  else none

/-- One loop iteration of calculateNutritionTotals: the contribution a
single ingredient adds to the running totals. Mirrors the body of the
for loop, including the JS truthiness test on the looked-up factor. -/
def ingredientStep (acc : NutTotals) (ing : NutIngredient) : NutTotals :=
  match ing.amount, ing.unit with
  | some amount, some unit =>
    match unitToGram (jsToLower unit) with
    | none => acc
    | some factor =>
      if factor = 0 then acc
      else
        let grams := amount * factor
        let kcal100 := ing.kcal100.orElse fun _ => ing.product.map (·.kcal100)
        let protein100 := ing.protein100.orElse fun _ => ing.product.map (·.protein100)
        let fat100 := ing.fat100.orElse fun _ => ing.product.map (·.fat100)
        let carbs100 := ing.carbs100.orElse fun _ => ing.product.map (·.carbs100)
        match kcal100, protein100, fat100, carbs100 with
        | some k, some p, some f, some c =>
          { calories := acc.calories + grams * k / 100
            protein := acc.protein + grams * p / 100
            fat := acc.fat + grams * f / 100
            carbs := acc.carbs + grams * c / 100 }
        | _, _, _, _ => acc
  | _, _ => acc

/-- calculateNutritionTotals from the source: fold the ingredient list,
then divide by the safe serving count. servings is the nullable INTEGER
column of the draft; the guard servings and servings greater than zero
mirrors the JS expression servings && servings > 0 ? servings : 1. -/
def calculateNutritionTotals (ingredients : List NutIngredient)
    (servings : Option ℤ) : NutTotals × NutTotals :=
  let total := ingredients.foldl ingredientStep ⟨0, 0, 0, 0⟩
  let safeServings : ℤ :=
    match servings with
    | some s => if 0 < s then s else 1
    | none => 1
  let perServing : NutTotals :=
    { calories := total.calories / (safeServings : ℚ)
      protein := total.protein / (safeServings : ℚ)
      fat := total.fat / (safeServings : ℚ)
      carbs := total.carbs / (safeServings : ℚ) }
  (total, perServing)

/-! Spec-side restatement of the nutrition contract, written from the
words of the specification: sum, over exactly the qualifying
ingredients, the contribution grams times per100 over 100, and divide
the totals by max(servings, 1). Used to compare against the embedding
of the source. -/

/-- Per-field macro source precedence as the spec words it: inline
snapshot value if present, else the linked product value. -/
def specMacro (inline : Option ℚ) (fromProduct : Option ℚ) : Option ℚ :=
  match inline with
  | some v => some v
  | none => fromProduct

/-- The contribution of one ingredient per the spec sentence, or none
when the ingredient is skipped (missing amount or unit, unit not in the
table, or an incomplete macro source). -/
def specContribution (ing : NutIngredient) : Option NutTotals :=
  match ing.amount, ing.unit with
  | some amount, some unit =>
    match unitToGram (jsToLower unit) with
    | some factor =>
      match specMacro ing.kcal100 (ing.product.map (·.kcal100)),
          specMacro ing.protein100 (ing.product.map (·.protein100)),
          specMacro ing.fat100 (ing.product.map (·.fat100)),
          specMacro ing.carbs100 (ing.product.map (·.carbs100)) with
      | some k, some p, some f, some c =>
        let grams := amount * factor
        some ⟨grams * k / 100, grams * p / 100, grams * f / 100, grams * c / 100⟩
      | _, _, _, _ => none
    | none => none
  | _, _ => none

/-- Componentwise sum of macro totals. -/
def addTotals (a b : NutTotals) : NutTotals :=
  ⟨a.calories + b.calories, a.protein + b.protein, a.fat + b.fat, a.carbs + b.carbs⟩

/-- Spec-side totals: sum of the contributions of exactly the
qualifying ingredients. -/
def specTotal (ingredients : List NutIngredient) : NutTotals :=
  (ingredients.filterMap specContribution).foldr addTotals ⟨0, 0, 0, 0⟩

/-- Spec-side result: totals plus per-serving values obtained by
dividing by max(servings, 1), with null servings giving divisor 1. -/
def specNutrition (ingredients : List NutIngredient)
    (servings : Option ℤ) : NutTotals × NutTotals :=
  let total := specTotal ingredients
  let divisor : ℤ := max (servings.getD 1) 1
  (total,
    ⟨total.calories / (divisor : ℚ), total.protein / (divisor : ℚ),
      total.fat / (divisor : ℚ), total.carbs / (divisor : ℚ)⟩)

/-! ## TDEE / target calculator

Embedding of TdeeService (src/tdee/tdee.service.ts). The wall clock
read by calculateAgeYears is passed in explicitly as a date value. -/

inductive Sex | FEMALE | MALE
  deriving Repr, DecidableEq

inductive ActivityLevel | SEDENTARY | LIGHT | MODERATE | VERY_ACTIVE
  deriving Repr, DecidableEq

inductive GoalType | MAINTAIN | LOSE | GAIN
  deriving Repr, DecidableEq

/-- A calendar date as exposed by getUTCFullYear, getUTCMonth, getUTCDate. -/
structure SimpleDate where
  year : ℤ
  month : ℤ
  day : ℤ
  deriving Repr, DecidableEq

/-- Input of calculateTargets. -/
structure TargetInput where
  sex : Sex
  birthDate : SimpleDate
  heightCm : ℚ
  weightKg : ℚ
  activityLevel : ActivityLevel
  goal : GoalType
  calorieDelta : Option ℚ
  deriving Repr, DecidableEq

/-- Computed targets of calculateTargets. -/
structure Targets where
  targetCalories : ℤ
  targetProteinG : ℤ
  targetFatG : ℤ
  targetCarbsG : ℤ
  deriving Repr, DecidableEq

/-- calculateAgeYears: calendar year difference, decremented when the
birthday has not yet been reached this year, clamped at zero. -/
def calculateAgeYears (birthDate : SimpleDate) (now : SimpleDate) : ℤ :=
  let years := now.year - birthDate.year
  let monthDiff := now.month - birthDate.month
  let dayDiff := now.day - birthDate.day
  let years := if monthDiff < 0 ∨ (monthDiff = 0 ∧ dayDiff < 0) then years - 1 else years
  max 0 years

/-- calculateBmrMifflin from the source. -/
def calculateBmrMifflin (sex : Sex) (heightCm weightKg : ℚ) (ageYears : ℤ) : ℚ :=
  let base := 10 * weightKg + 6.25 * heightCm - 5 * (ageYears : ℚ)
  match sex with
  | .MALE => base + 5
  | .FEMALE => base - 161

/-- activityFactor from the source switch. -/
def activityFactor (level : ActivityLevel) : ℚ :=
  match level with
  | .SEDENTARY => 1.2
  | .LIGHT => 1.375
  | .MODERATE => 1.55
  | .VERY_ACTIVE => 1.725

/-- calculateTargets from the source, with the clock passed explicitly. -/
def calculateTargets (input : TargetInput) (now : SimpleDate) : Targets :=
  let ageYears := calculateAgeYears input.birthDate now
  let bmr := calculateBmrMifflin input.sex input.heightCm input.weightKg ageYears
  let factor := activityFactor input.activityLevel
  let tdee := bmr * factor
  let delta :=
    match input.calorieDelta with
    | some d => d
    | none =>
      match input.goal with
      | .LOSE => -400
      | .GAIN => 250
      | .MAINTAIN => 0
  let targetCalories := jsRound (tdee + delta)
  let proteinG := jsRound (input.weightKg * (match input.goal with | .GAIN => (1.8 : ℚ) | _ => 1.6))
  let fatG := jsRound (input.weightKg * 0.8)
  let carbsG := max 0 (jsRound (((targetCalories : ℚ) - (proteinG : ℚ) * 4 - (fatG : ℚ) * 9) / 4))
  { targetCalories := targetCalories
    targetProteinG := proteinG
    targetFatG := fatG
    targetCarbsG := carbsG }

/-- Spec-side restatement of the target computation, written from the
words of the claim: BMR is 10w + 6.25h - 5a, plus 5 when male and minus
161 otherwise; the activity multiplier follows the table; the delta is
the explicit value when supplied, else -400 for LOSE, +250 for GAIN and
0 otherwise; protein is round(w * 1.8) for GAIN else round(w * 1.6),
fat is round(w * 0.8), and carbs absorb the calorie remainder at
4 kcal/g, floored at zero. -/
def specTargets (input : TargetInput) (age : ℤ) : Targets :=
  let base := 10 * input.weightKg + 6.25 * input.heightCm - 5 * (age : ℚ)
  let bmr := if input.sex = .MALE then base + 5 else base - 161
  let factor : ℚ :=
    match input.activityLevel with
    | .SEDENTARY => 1.2
    | .LIGHT => 1.375
    | .MODERATE => 1.55
    | .VERY_ACTIVE => 1.725
  let delta :=
    input.calorieDelta.getD
      (match input.goal with | .LOSE => (-400 : ℚ) | .GAIN => 250 | .MAINTAIN => 0)
  let targetCalories := jsRound (bmr * factor + delta)
  let protein : ℤ :=
    if input.goal = .GAIN then jsRound (input.weightKg * 1.8)
    else jsRound (input.weightKg * 1.6)
  let fat := jsRound (input.weightKg * 0.8)
  let carbs := max 0 (jsRound (((targetCalories : ℚ) - (protein : ℚ) * 4 - (fat : ℚ) * 9) / 4))
  ⟨targetCalories, protein, fat, carbs⟩

/-! ## Recipe draft lifecycle and idempotency mechanism

Embedding of RecipeDraftsService (src/recipes/recipe-drafts.service.ts)
with the persistence collaborator made explicit as a database value.
String ids are generated from a counter carried in the database value.
JS truthiness tests on the idempotency key and on productId are kept:
an empty string is falsy there. -/

/-- RecipeDraftIngredient row. The assumptions JSON blob is kept opaque. -/
structure DraftIngredient where
  id : String
  draftId : String
  order : ℤ
  originalText : Option String
  name : String
  amount : Option ℚ
  unit : Option String
  productId : Option String
  kcal100 : Option ℚ
  protein100 : Option ℚ
  fat100 : Option ℚ
  carbs100 : Option ℚ
  assumptions : Option String
  deriving Repr, DecidableEq

/-- RecipeDraftStep row. -/
structure DraftStep where
  id : String
  draftId : String
  order : ℤ
  text : String
  deriving Repr, DecidableEq

inductive DraftStatus | DRAFT | PUBLISHED
  deriving Repr, DecidableEq

/-- RecipeDraft row, including the computed nutrition fields. -/
structure RecipeDraftRow where
  id : String
  title : String
  category : Option String
  description : Option String
  servings : Option ℤ
  status : DraftStatus
  nutritionTotal : Option NutTotals
  nutritionPerServing : Option NutTotals
  deriving Repr, DecidableEq

/-- Ingredient snapshot copied into a published Recipe. -/
structure RecipeIngredientRow where
  order : ℤ
  originalText : Option String
  name : String
  amount : Option ℚ
  unit : Option String
  productId : Option String
  kcal100 : Option ℚ
  protein100 : Option ℚ
  fat100 : Option ℚ
  carbs100 : Option ℚ
  assumptions : Option String
  deriving Repr, DecidableEq

/-- Step snapshot copied into a published Recipe. -/
structure RecipeStepRow where
  order : ℤ
  text : String
  deriving Repr, DecidableEq

/-- Published, immutable Recipe record. -/
structure RecipeRow where
  id : String
  title : String
  category : Option String
  description : Option String
  servings : Option ℤ
  ingredients : List RecipeIngredientRow
  steps : List RecipeStepRow
  nutritionTotal : NutTotals
  nutritionPerServing : NutTotals
  deriving Repr, DecidableEq

/-- A draft together with its ordered ingredients and steps, as returned
by queries that include both relations. -/
structure DraftView where
  draft : RecipeDraftRow
  ingredients : List DraftIngredient
  steps : List DraftStep
  deriving Repr, DecidableEq

/-- Result payload stored in and replayed from an idempotency record.
The source casts the stored JSON blindly to the expected shape, so the
replay returns whatever payload was stored. -/
inductive StoredResult
  | draft (v : DraftView)
  | ingredientList (l : List DraftIngredient)
  | stepList (l : List DraftStep)
  | recipe (r : RecipeRow)
  deriving Repr, DecidableEq

/-- IdempotencyKey row. The unique index on (operation, key, entityId)
means at most one such record per composite key; result is stored
non-null by every insert the service performs. -/
structure IdemRecord where
  operation : String
  key : String
  entityId : String
  result : StoredResult
  deriving Repr, DecidableEq

/-- The persistence collaborator state. -/
structure DB where
  drafts : List RecipeDraftRow
  draftIngredients : List DraftIngredient
  draftSteps : List DraftStep
  recipes : List RecipeRow
  idemRecords : List IdemRecord
  products : List (String × ProductMacros)
  nextId : ℕ
  deriving Repr, DecidableEq

/-- Errors thrown by the draft lifecycle operations. -/
structure MissingIngredient where
  ingredientId : String
  name : String
  missing : List String
  hint : String
  deriving Repr, DecidableEq

inductive DraftErr
  | notFound
  | draftIncomplete (missingFields : List String)
      (missingIngredients : List MissingIngredient)
  deriving Repr, DecidableEq

/-- validate result shape. -/
structure DraftValidationResult where
  isValid : Bool
  missingFields : List String
  missingIngredients : List MissingIngredient
  deriving Repr, DecidableEq

def findDraft (db : DB) (draftId : String) : Option RecipeDraftRow :=
  db.drafts.find? (fun d => d.id == draftId)

def ingredientsOf (db : DB) (draftId : String) : List DraftIngredient :=
  db.draftIngredients.filter (fun i => i.draftId == draftId)

def stepsOf (db : DB) (draftId : String) : List DraftStep :=
  db.draftSteps.filter (fun s => s.draftId == draftId)

/-- Stable insertion sort ascending by an integer sort key, modelling
the orderBy order asc clauses. -/
def insertByOrder (ord : α → ℤ) (x : α) : List α → List α
  | [] => [x]
  | y :: ys => if ord y ≤ ord x then y :: insertByOrder ord x ys else x :: y :: ys

def sortByOrder (ord : α → ℤ) : List α → List α
  | [] => []
  | x :: xs => insertByOrder ord x (sortByOrder ord xs)

/-- Draft fetched with both relations, each ordered by order asc. -/
def getDraftView (db : DB) (draftId : String) : Option DraftView :=
  (findDraft db draftId).map fun d =>
    ⟨d, sortByOrder (·.order) (ingredientsOf db draftId),
      sortByOrder (·.order) (stepsOf db draftId)⟩

/-- Lookup of the idempotency record for (operation, key, entityId). -/
def lookupIdem (db : DB) (operation key entityId : String) : Option IdemRecord :=
  db.idemRecords.find?
    (fun r => r.operation == operation && r.key == key && r.entityId == entityId)

/-- Insert of a fresh idempotency record. -/
def insertIdem (db : DB) (operation key entityId : String)
    (result : StoredResult) : DB :=
  { db with idemRecords := db.idemRecords ++ [⟨operation, key, entityId, result⟩] }

/-- JS truthiness of a nullable string: null and the empty string are falsy. -/
def optStrTruthy : Option String → Bool
  | some s => s ≠ ""
  | none => false

/-- The key actually used by the guards of the form: if key and the
idempotency model exists. An empty string key is falsy in JS and
disables the mechanism exactly like a missing key. -/
def truthyKey (key : Option String) : Option String :=
  match key with
  | some k => if k = "" then none else some k
  | none => none

def lookupProduct (db : DB) (productId : String) : Option ProductMacros :=
  (db.products.find? (fun p => p.1 == productId)).map (·.2)

/-- Conversion of an ingredient row to a nutrition input with the
product relation joined, as recalcDraftNutritionTx queries it. -/
def toNutIngredientJoined (db : DB) (i : DraftIngredient) : NutIngredient :=
  ⟨i.amount, i.unit, i.kcal100, i.protein100, i.fat100, i.carbs100,
    i.productId.bind (lookupProduct db)⟩

/-- Conversion without the product relation: getDraft does not include
the product, so the product fallback reads undefined there. -/
def toNutIngredientNoJoin (i : DraftIngredient) : NutIngredient :=
  ⟨i.amount, i.unit, i.kcal100, i.protein100, i.fat100, i.carbs100, none⟩

def updateDraftRow (db : DB) (draftId : String)
    (f : RecipeDraftRow → RecipeDraftRow) : DB :=
  { db with drafts := db.drafts.map (fun d => if d.id == draftId then f d else d) }

/-- The nutrition-fields update recalcDraftNutritionTx writes back to
the draft row. -/
def setDraftNutrition (db : DB) (draftId : String)
    (r : NutTotals × NutTotals) : DB :=
  updateDraftRow db draftId fun d =>
    { d with nutritionTotal := some r.1, nutritionPerServing := some r.2 }

/-- recalcDraftNutritionTx: refetch the draft with relations and the
product join, recompute the totals, store them on the draft, and
refetch the updated draft. -/
def recalcDraftNutrition (db : DB) (draftId : String) : Option (DraftView × DB) :=
  match getDraftView db draftId with
  | none => none
  | some v =>
    let db1 := setDraftNutrition db draftId
      (calculateNutritionTotals (v.ingredients.map (toNutIngredientJoined db))
        v.draft.servings)
    (getDraftView db1 draftId).map fun v1 => (v1, db1)

/-- Maximum of a list of integers, as the prisma max aggregate: none on
an empty list. -/
def maxInt? : List ℤ → Option ℤ
  | [] => none
  | x :: xs =>
    some (match maxInt? xs with
      | none => x
      | some m => max x m)

/-- nextIngredientOrderTx: max existing order (0 when none) plus 1. -/
def nextIngredientOrderTx (db : DB) (draftId : String) : ℤ :=
  ((maxInt? ((ingredientsOf db draftId).map (·.order))).getD 0) + 1

def freshId (db : DB) : String := "row_" ++ toString db.nextId

/-- Argument object of addIngredient. macrosPer100, when present,
carries all four per-100 values. -/
structure AddIngredientArgs where
  originalText : Option String
  name : String
  amount : Option ℚ
  unit : Option String
  productId : Option String
  order : Option ℤ
  assumptions : Option String
  macrosPer100 : Option ProductMacros
  clientRequestId : Option String
  deriving Repr, DecidableEq

def opAddIngredient : String := "recipeDraft.addIngredient"
def opRemoveIngredient : String := "recipeDraft.removeIngredient"
def opSetSteps : String := "recipeDraft.setSteps"
def opPublish : String := "recipeDraft.publish"

/-- The row an addIngredient create writes for the assigned order. -/
def newIngredientRow (db : DB) (draftId : String) (ing : AddIngredientArgs)
    (order : ℤ) : DraftIngredient :=
  { id := freshId db
    draftId := draftId
    order := order
    originalText := ing.originalText
    name := ing.name
    amount := ing.amount
    unit := ing.unit
    productId := ing.productId
    kcal100 := ing.macrosPer100.map (·.kcal100)
    protein100 := ing.macrosPer100.map (·.protein100)
    fat100 := ing.macrosPer100.map (·.fat100)
    carbs100 := ing.macrosPer100.map (·.carbs100)
    assumptions := ing.assumptions }

/-- The field update an addIngredient overwrite applies to the row that
already occupies the assigned order (order, draftId and id are kept). -/
def overwriteIngredientRow (ing : AddIngredientArgs)
    (i : DraftIngredient) : DraftIngredient :=
  { i with
    originalText := ing.originalText
    name := ing.name
    amount := ing.amount
    unit := ing.unit
    productId := ing.productId
    kcal100 := ing.macrosPer100.map (·.kcal100)
    protein100 := ing.macrosPer100.map (·.protein100)
    fat100 := ing.macrosPer100.map (·.fat100)
    carbs100 := ing.macrosPer100.map (·.carbs100)
    assumptions := ing.assumptions }

/-- The overwrite-or-create write of addIngredient: if an ingredient of
the draft already occupies the assigned order, update that row in
place; otherwise create a new row with the assigned order. -/
def addIngredientWrite (db : DB) (draftId : String) (ing : AddIngredientArgs)
    (order : ℤ) : DB :=
  match db.draftIngredients.find?
    (fun i => i.draftId == draftId && i.order == order) with
  | some row =>
    { db with draftIngredients := db.draftIngredients.map fun i =>
        if i.id == row.id then overwriteIngredientRow ing i else i }
  | none =>
    { db with
      draftIngredients := db.draftIngredients ++ [newIngredientRow db draftId ing order]
      nextId := db.nextId + 1 }

/-- The key resolution of addIngredient: the separate clientRequestId
argument wins, else the one nested in the ingredient payload, with JS
truthiness applied. -/
def resolveAddKey (clientRequestId : Option String)
    (ing : AddIngredientArgs) : Option String :=
  truthyKey
    (match clientRequestId with | some k => some k | none => ing.clientRequestId)

/-- addIngredient: idempotency lookup, draft existence check, order
assignment, overwrite-or-create by (draftId, order), nutrition
recompute, idempotency insert — all inside one transaction. -/
def addIngredient (db : DB) (draftId : String) (ing : AddIngredientArgs)
    (clientRequestId : Option String) : Except DraftErr (StoredResult × DB) :=
  let key? := resolveAddKey clientRequestId ing
  match (match key? with
    | some k => lookupIdem db opAddIngredient k draftId
    | none => none) with
  | some rec => .ok (rec.result, db)
  | none =>
    match findDraft db draftId with
    | none => .error .notFound
    | some _ =>
      let order := ing.order.getD (nextIngredientOrderTx db draftId)
      let db1 := addIngredientWrite db draftId ing order
      match recalcDraftNutrition db1 draftId with
      | none => .error .notFound
      | some (view, db2) =>
        let db3 :=
          match key? with
          | some k => insertIdem db2 opAddIngredient k draftId (.draft view)
          | none => db2
        .ok (.draft view, db3)

/-- removeIngredient: idempotency lookup, deleteMany by id scoped to the
draft (zero rows deleted throws), nutrition recompute, idempotency
insert — all inside one transaction. -/
def removeIngredient (db : DB) (draftId ingredientId : String)
    (clientRequestId : Option String) : Except DraftErr (StoredResult × DB) :=
  let key? := truthyKey clientRequestId
  match (match key? with
    | some k => lookupIdem db opRemoveIngredient k draftId
    | none => none) with
  | some rec => .ok (rec.result, db)
  | none =>
    let remaining := db.draftIngredients.filter
      (fun i => !(i.id == ingredientId && i.draftId == draftId))
    if remaining.length == db.draftIngredients.length then
      .error .notFound
    else
      let db1 := { db with draftIngredients := remaining }
      match recalcDraftNutrition db1 draftId with
      | none => .error .notFound
      | some (view, db2) =>
        let db3 :=
          match key? with
          | some k =>
            insertIdem db2 opRemoveIngredient k draftId (.ingredientList view.ingredients)
          | none => db2
        .ok (.ingredientList view.ingredients, db3)

/-- setSteps: idempotency lookup, draft existence check, delete-all then
insert-all with 1-based contiguous order, nutrition recompute,
idempotency insert — all inside one transaction. -/
def setSteps (db : DB) (draftId : String) (steps : List String)
    (clientRequestId : Option String) : Except DraftErr (StoredResult × DB) :=
  let key? := truthyKey clientRequestId
  match (match key? with
    | some k => lookupIdem db opSetSteps k draftId
    | none => none) with
  | some rec => .ok (rec.result, db)
  | none =>
    match findDraft db draftId with
    | none => .error .notFound
    | some _ =>
      let kept := db.draftSteps.filter (fun s => !(s.draftId == draftId))
      let created := steps.enum.map fun p =>
        ({ id := "row_" ++ toString (db.nextId + p.1)
           draftId := draftId
           order := (p.1 : ℤ) + 1
           text := p.2 } : DraftStep)
      let db1 := { db with
        draftSteps := kept ++ created
        nextId := db.nextId + steps.length }
      match recalcDraftNutrition db1 draftId with
      | none => .error .notFound
      | some (view, db2) =>
        let db3 :=
          match key? with
          | some k => insertIdem db2 opSetSteps k draftId (.stepList view.steps)
          | none => db2
        .ok (.stepList view.steps, db3)

/-- evaluateDraft: the shared validation used by validate and publish. -/
def evaluateDraft (v : DraftView) : DraftValidationResult :=
  let missingFields :=
    (if v.draft.title = "" ∨ jsTrim v.draft.title = "" then ["title"] else []) ++
    (if v.ingredients.length = 0 then ["ingredients"] else []) ++
    (if v.steps.length = 0 then ["steps"] else [])
  let missingIngredients := v.ingredients.filterMap fun i =>
    if optStrTruthy i.productId then none
    else
      let hasMacros := i.kcal100.isSome && i.protein100.isSome &&
        i.fat100.isSome && i.carbs100.isSome
      if hasMacros then none
      else some
        { ingredientId := i.id
          name := i.name
          missing := ["productId", "macrosPer100"]
          hint := "Specify productId or provide macrosPer100" }
  { isValid := missingFields.isEmpty && missingIngredients.isEmpty
    missingFields := missingFields
    missingIngredients := missingIngredients }

/-- validateDraft: fetch the draft and evaluate it; read-only. -/
def validateDraft (db : DB) (draftId : String) :
    Except DraftErr DraftValidationResult :=
  match getDraftView db draftId with
  | none => .error .notFound
  | some v => .ok (evaluateDraft v)

/-- The fixed snapshot warning appended to a published description. -/
def SNAPSHOT_WARNING : String :=
  "⚠️ Некоторые ингредиенты содержат оценочные данные (snapshot)."

/-- buildPublishedDescription from the source. -/
def buildPublishedDescription (description : Option String)
    (hasSnapshotIngredient : Bool) : Option String :=
  if !hasSnapshotIngredient then description
  else
    match description with
    | none => some SNAPSHOT_WARNING
    | some d =>
      if d = "" ∨ jsTrim d = "" then some SNAPSHOT_WARNING
      else some (d ++ "\n\n" ++ SNAPSHOT_WARNING)

/-- The read-validate-clone-flip phase of publishDraft: everything from
the getDraft call through the end of the transaction that creates the
Recipe and flips the draft status. getDraft does not join the product
relation, so the nutrition snapshot uses only inline macro values. -/
def publishCore (db : DB) (draftId : String) : Except DraftErr (RecipeRow × DB) :=
  match getDraftView db draftId with
  | none => .error .notFound
  | some draft =>
    let r := calculateNutritionTotals (draft.ingredients.map toNutIngredientNoJoin)
      draft.draft.servings
    let validation := evaluateDraft draft
    if validation.isValid = false then
      .error (.draftIncomplete validation.missingFields validation.missingIngredients)
    else
      let hasSnapshotIngredient :=
        draft.ingredients.any (fun i => !(optStrTruthy i.productId))
      let description := buildPublishedDescription draft.draft.description
        hasSnapshotIngredient
      let recipe : RecipeRow :=
        { id := freshId db
          title := draft.draft.title
          category := draft.draft.category
          description := description
          servings := draft.draft.servings
          ingredients := draft.ingredients.map fun i =>
            { order := i.order
              originalText := i.originalText
              name := i.name
              amount := i.amount
              unit := i.unit
              productId := i.productId
              kcal100 := i.kcal100
              protein100 := i.protein100
              fat100 := i.fat100
              carbs100 := i.carbs100
              assumptions := i.assumptions }
          steps := draft.steps.map fun s => { order := s.order, text := s.text }
          nutritionTotal := r.1
          nutritionPerServing := r.2 }
      let db1 := { db with recipes := db.recipes ++ [recipe], nextId := db.nextId + 1 }
      let db2 := updateDraftRow db1 draftId fun d => { d with status := .PUBLISHED }
      .ok (recipe, db2)

/-- publishDraft: the idempotency lookup runs before the transaction and
the idempotency insert after it, unlike the other keyed operations. -/
def publishDraft (db : DB) (draftId : String)
    (clientRequestId : Option String) : Except DraftErr (StoredResult × DB) :=
  let key? := truthyKey clientRequestId
  match (match key? with
    | some k => lookupIdem db opPublish k draftId
    | none => none) with
  | some rec => .ok (rec.result, db)
  | none =>
    match publishCore db draftId with
    | .error e => .error e
    | .ok (recipe, db1) =>
      let db2 :=
        match key? with
        | some k => insertIdem db1 opPublish k draftId (.recipe recipe)
        | none => db1
      .ok (.recipe recipe, db2)

/-! ### Transaction-boundary observability

Each operation commits in one or more atomic transactions. The lists
below hold the database states observable from outside the operation,
in order: the initial state and the state after each commit. For
addIngredient, removeIngredient and setSteps the whole body, including
the idempotency lookup and insert, runs inside a single transaction
callback, so the only committed states are the initial and the final
one (a thrown error rolls the transaction back wholesale). publishDraft
runs its idempotency lookup before the transaction and its idempotency
insert after the transaction, so the state after the mutation commits
but before the record insert is observable. -/

def singleTxnObs (db : DB) (r : Except DraftErr (StoredResult × DB)) : List DB :=
  match r with
  | .ok (_, db1) => [db, db1]
  | .error _ => [db]

def addIngredientObs (db : DB) (draftId : String) (ing : AddIngredientArgs)
    (clientRequestId : Option String) : List DB :=
  singleTxnObs db (addIngredient db draftId ing clientRequestId)

def removeIngredientObs (db : DB) (draftId ingredientId : String)
    (clientRequestId : Option String) : List DB :=
  singleTxnObs db (removeIngredient db draftId ingredientId clientRequestId)

def setStepsObs (db : DB) (draftId : String) (steps : List String)
    (clientRequestId : Option String) : List DB :=
  singleTxnObs db (setSteps db draftId steps clientRequestId)

def publishObs (db : DB) (draftId : String)
    (clientRequestId : Option String) : List DB :=
  let key? := truthyKey clientRequestId
  match (match key? with
    | some k => lookupIdem db opPublish k draftId
    | none => none) with
  | some _ => [db]
  | none =>
    match publishCore db draftId with
    | .error _ => [db]
    | .ok (recipe, db1) =>
      match key? with
      | none => [db, db1]
      | some k => [db, db1, insertIdem db1 opPublish k draftId (.recipe recipe)]

/-- Order uniqueness of the ingredient rows of one draft. -/
def ordersUnique (db : DB) (draftId : String) : Prop :=
  ((ingredientsOf db draftId).map (·.order)).Nodup

/-! Concrete example rows and databases used to exhibit concrete runs
of the lifecycle operations. The ingredient deliberately has a null
amount, so the nutrition recompute touches no arithmetic. -/

def exDraft : RecipeDraftRow :=
  { id := "d1", title := "Omelette", category := none, description := none,
    servings := none, status := .DRAFT, nutritionTotal := none,
    nutritionPerServing := none }

def exIngredient : DraftIngredient :=
  { id := "i1", draftId := "d1", order := 1, originalText := none,
    name := "Egg", amount := none, unit := none, productId := none,
    kcal100 := some 100, protein100 := some 10, fat100 := some 5,
    carbs100 := some 12, assumptions := none }

def exStep : DraftStep := { id := "s1", draftId := "d1", order := 1, text := "Cook" }

/-- A database with one complete draft (valid for publish). -/
def exDb : DB :=
  { drafts := [exDraft], draftIngredients := [exIngredient],
    draftSteps := [exStep], recipes := [], idemRecords := [], products := [],
    nextId := 0 }

/-- An argument object for addIngredient with no caller-supplied order
and no key, and with a null amount so no arithmetic is forced. -/
def exArgs : AddIngredientArgs :=
  { originalText := none, name := "Tomato", amount := none, unit := none,
    productId := none, order := none, assumptions := none,
    macrosPer100 := some ⟨18, 1, 1, 4⟩, clientRequestId := none }

def exRecAdd : IdemRecord := ⟨opAddIngredient, "k1", "d1", .stepList []⟩
def exRecRemove : IdemRecord := ⟨opRemoveIngredient, "k1", "d1", .ingredientList []⟩
def exRecSetSteps : IdemRecord := ⟨opSetSteps, "k1", "d1", .stepList [exStep]⟩
def exRecPublish : IdemRecord :=
  ⟨opPublish, "k1", "d1", .recipe ⟨"r9", "Old", none, none, none, [], [],
    ⟨0, 0, 0, 0⟩, ⟨0, 0, 0, 0⟩⟩⟩

/-- exDb with stored idempotency records for all four keyed operations
under key k1. -/
def exDbRecs : DB :=
  { exDb with idemRecords :=
      [exRecAdd, exRecRemove, exRecSetSteps, exRecPublish] }

/-- A database whose only draft is already PUBLISHED. -/
def exDbPublished : DB :=
  { exDb with drafts := [{ exDraft with status := .PUBLISHED }] }

/-- A database with an incomplete draft: title present but no
ingredients and no steps. -/
def exDbIncomplete : DB :=
  { exDb with draftIngredients := [], draftSteps := [] }

/-! ## JSON values and the schema validator and coercer

Embedding of the coerceValue and validateInput methods of McpService
(src/mcp/mcp.service.ts) and of the JSON-RPC router of McpController.
JS numbers are idealized as exact rationals, with NaN and the two
infinities as separate constructors so that typeof-number checks and
the Number.isFinite test can be mirrored. -/

/-- A JS number value: finite (idealized as an exact rational), an
infinity, or NaN. All have JS typeof number. -/
inductive JsNum
  | fin (q : ℚ)
  | posInf
  | negInf
  | nan
  deriving Repr, DecidableEq

/-- A JSON-ish JS value. Objects are association lists without duplicate
key semantics applied (JS object literals cannot carry duplicates). -/
inductive JVal
  | vnull
  | vbool (b : Bool)
  | vnum (n : JsNum)
  | vstr (s : String)
  | varr (elems : List JVal)
  | vobj (fields : List (String × JVal))
  deriving Repr

/-- Scalar type names usable in a schema type set. -/
inductive SType
  | sString | sNumber | sObject | sArray | sBoolean | sNull
  deriving Repr, DecidableEq

/-- The recursive JsonSchema shape: type set, properties, items,
required, additionalProperties (absent means true), enum. A scalar
type field in the source is normalized to a one-element set. -/
inductive JSchema
  | mk (types : List SType) (properties : List (String × JSchema))
      (items : Option JSchema) (required : List String)
      (additionalProperties : Option Bool) (enumVals : Option (List JVal))
  deriving Repr

def JSchema.types : JSchema → List SType
  | .mk t _ _ _ _ _ => t

/-- A structured validation error entry. -/
structure FieldErr where
  path : String
  expected : String
  got : String
  deriving Repr, DecidableEq

def sTypeName : SType → String
  | .sString => "string"
  | .sNumber => "number"
  | .sObject => "object"
  | .sArray => "array"
  | .sBoolean => "boolean"
  | .sNull => "null"

/-- types.join with the pipe separator. -/
def typesJoin (types : List SType) : String :=
  String.intercalate "|" (types.map sTypeName)

/-- describeType from the source. -/
def describeType : JVal → String
  | .vnull => "null"
  | .varr _ => "array"
  | .vobj _ => "object"
  | .vnum _ => "number"
  | .vstr _ => "string"
  | .vbool _ => "boolean"

/-- describeSchema from the source. -/
def describeSchema (schema : JSchema) : String :=
  typesJoin schema.types

/-! JS Number(string) coercion, idealized over exact rationals: decimal
numbers with optional sign, fraction and exponent, the hex, octal and
binary prefixes, the Infinity spellings, and the whitespace-only-is-zero
rule. IEEE rounding and overflow to Infinity are not modelled. -/

def charDigit? (base : ℕ) (c : Char) : Option ℕ :=
  let v : Option ℕ :=
    if c.isDigit then some (c.toNat - 48)
    else if 'a' ≤ c.toLower ∧ c.toLower ≤ 'z' then some (c.toLower.toNat - 87)
    else none
  match v with
  | some n => if n < base then some n else none
  | none => none

def natOfDigits? (base : ℕ) (cs : List Char) : Option ℕ :=
  if cs.isEmpty then none
  else cs.foldlM (fun acc c => (charDigit? base c).map (fun d => acc * base + d)) 0

/-- Split a character list at the first exponent marker. -/
def splitAtExp : List Char → List Char × Option (List Char)
  | [] => ([], none)
  | c :: cs =>
    if c = 'e' ∨ c = 'E' then ([], some cs)
    else
      let r := splitAtExp cs
      (c :: r.1, r.2)

/-- Parse an unsigned decimal mantissa: digits, digits.digits or .digits. -/
def parseDecMantissa (cs : List Char) : Option ℚ :=
  let intPart := cs.takeWhile (·.isDigit)
  let rest := cs.drop intPart.length
  match rest with
  | [] => (natOfDigits? 10 intPart).map (fun n => (n : ℚ))
  | '.' :: frac =>
    if frac.all (·.isDigit) ∧ ¬(intPart.isEmpty ∧ frac.isEmpty) then
      let ip : ℚ := ((natOfDigits? 10 intPart).getD 0 : ℕ)
      let fp : ℚ :=
        match natOfDigits? 10 frac with
        | none => 0
        | some f => (f : ℚ) / (10 : ℚ) ^ frac.length
      some (ip + fp)
    else none
  | _ => none

/-- Parse an optionally signed decimal number with optional exponent. -/
def parseSignedDec (cs : List Char) : Option ℚ :=
  let (body, negative) :=
    match cs with
    | '+' :: rest => (rest, false)
    | '-' :: rest => (rest, true)
    | _ => (cs, false)
  let (mant, exp?) := splitAtExp body
  let mantissa? := parseDecMantissa mant
  let value? :=
    match exp?, mantissa? with
    | none, some m => some m
    | some ecs, some m =>
      (match ecs with
        | '+' :: ds => (natOfDigits? 10 ds).map (fun e => m * (10 : ℚ) ^ (e : ℤ))
        | '-' :: ds => (natOfDigits? 10 ds).map (fun e => m * (10 : ℚ) ^ (-(e : ℤ)))
        | ds => (natOfDigits? 10 ds).map (fun e => m * (10 : ℚ) ^ (e : ℤ)))
    | _, none => none
  value?.map (fun v => if negative then -v else v)

/-- Number(string) for a JS string. -/
def jsToNumber (s : String) : JsNum :=
  let t := jsTrim s
  if t = "" then .fin 0
  else if t = "Infinity" ∨ t = "+Infinity" then .posInf
  else if t = "-Infinity" then .negInf
  else
    match t.toList with
    | '0' :: 'x' :: rest =>
      match natOfDigits? 16 rest with | some n => .fin n | none => .nan
    | '0' :: 'X' :: rest =>
      match natOfDigits? 16 rest with | some n => .fin n | none => .nan
    | '0' :: 'o' :: rest =>
      match natOfDigits? 8 rest with | some n => .fin n | none => .nan
    | '0' :: 'b' :: rest =>
      match natOfDigits? 2 rest with | some n => .fin n | none => .nan
    | cs =>
      match parseSignedDec cs with
      | some q => .fin q
      | none => .nan

/-- String(number) for JS numbers. Exact for integers and the special
values; the decimal rendering of non-integer doubles is idealized. -/
def jsNumToString : JsNum → String
  | .fin q => if q.den = 1 then toString q.num else toString q
  | .posInf => "Infinity"
  | .negInf => "-Infinity"
  | .nan => "NaN"

/-- How a JS Array.prototype.join renders an enum entry. -/
def enumEntryString : JVal → String
  | .vstr s => s
  | .vnum n => jsNumToString n
  | .vnull => ""
  | .vbool b => if b then "true" else "false"
  | .varr _ => ""
  | .vobj _ => "[object Object]"

/-- schema.enum.join with the pipe separator. -/
def enumJoin (entries : List JVal) : String :=
  String.intercalate "|" (entries.map enumEntryString)

def isPlainObject : JVal → Bool
  | .vobj _ => true
  | _ => false

/-- Association lookup in an object value, as property access. -/
def lookupField : List (String × JVal) → String → Option JVal
  | [], _ => none
  | f :: fs, k => if f.1 == k then some f.2 else lookupField fs k

theorem sizeOf_lookupField {fields : List (String × JVal)} {k : String}
    {v : JVal} (h : lookupField fields k = some v) : sizeOf v < sizeOf fields := by
  induction fields with
  | nil => simp [lookupField] at h
  | cons f fs ih =>
    rw [lookupField] at h
    by_cases hk : f.1 == k
    · rw [if_pos hk] at h
      cases h
      obtain ⟨a, b⟩ := f
      simp only [List.cons.sizeOf_spec, Prod.mk.sizeOf_spec]
      omega
    · rw [if_neg hk] at h
      have := ih h
      simp only [List.cons.sizeOf_spec]
      omega

/-- The shared tail of the string-accepting branch of coerceValue:
trim, then check the declared enum (Array.prototype.includes against a
string compares with strict equality). -/
def stringReturn (enm : Option (List JVal)) (s : String) (path : String)
    (errs : List FieldErr) : JVal × List FieldErr :=
  let normalized := jsTrim s
  match enm with
  | some entries =>
    if entries.any (fun e => match e with | .vstr t => t == normalized | _ => false) then
      (.vstr normalized, errs)
    else (.vstr normalized, errs ++ [⟨path, enumJoin entries, normalized⟩])
  | none => (.vstr normalized, errs)

/-- Whether the numeric-string leniency of coerceValue fires: the schema
allows number, the string is non-empty after trimming, and Number does
not yield NaN. -/
def numCoercible (types : List SType) (s : String) : Bool :=
  types.contains .sNumber && jsTrim s ≠ "" &&
    (match jsToNumber s with | .nan => false | _ => true)

mutual

/-- coerceValue from the source, written as the value-type reachability
split of its sequential if-chain: step 1 handles null; steps 2 and 3
(numeric-string leniency, number-to-string rendering) only rewrite
string and number values, so boolean, array and object values reach
their own checks unchanged; anything unmatched falls through to the
generic error push. Errors are threaded in place of the mutated errors
array of the source. -/
def coerceValue (schema : JSchema) (value : JVal) (path : String)
    (errs : List FieldErr) : JVal × List FieldErr :=
  match schema with
  | .mk types props items required addl enm =>
    match value with
    | .vnull =>
      if types.contains .sNull then (.vnull, errs)
      else (.vnull, errs ++ [⟨path, typesJoin types, "null"⟩])
    | .vstr s =>
      if numCoercible types s then
        let n := jsToNumber s
        if types.contains .sString then
          stringReturn enm (jsNumToString n) path errs
        else
          match n with
          | .fin q => (.vnum (.fin q), errs)
          | n => (.vnum n, errs ++ [⟨path, "number", "non-finite number"⟩])
      else
        if types.contains .sString then stringReturn enm s path errs
        else (.vstr s, errs ++ [⟨path, typesJoin types, "string"⟩])
    | .vnum n =>
      if types.contains .sString then
        stringReturn enm (jsNumToString n) path errs
      else if types.contains .sNumber then
        match n with
        | .fin q => (.vnum (.fin q), errs)
        | n => (.vnum n, errs ++ [⟨path, "number", "non-finite number"⟩])
      else (.vnum n, errs ++ [⟨path, typesJoin types, "number"⟩])
    | .vbool b =>
      if types.contains .sBoolean then (.vbool b, errs)
      else (.vbool b, errs ++ [⟨path, typesJoin types, "boolean"⟩])
    | .varr elems =>
      match items with
      | some itemSchema =>
        if types.contains .sArray then
          let r := coerceItems itemSchema elems path 0 errs
          (.varr r.1, r.2)
        else (.varr elems, errs ++ [⟨path, typesJoin types, "array"⟩])
      | none => (.varr elems, errs ++ [⟨path, typesJoin types, "array"⟩])
    | .vobj fields =>
      if types.contains .sObject then
        let r := coerceProps props required fields path errs
        if addl.getD true = false then (.vobj r.1, r.2)
        else
          (.vobj (r.1 ++ fields.filter
            (fun f => !(props.any (fun p => p.1 == f.1)))), r.2)
      else (.vobj fields, errs ++ [⟨path, typesJoin types, "object"⟩])
termination_by sizeOf schema + sizeOf value
decreasing_by
  all_goals simp_wf
  all_goals omega

/-- The array-branch recursion: coerce every element against the item
schema, accumulating bracketed path suffixes. -/
def coerceItems (schema : JSchema) (elems : List JVal) (path : String)
    (idx : ℕ) (errs : List FieldErr) : List JVal × List FieldErr :=
  match elems with
  | [] => ([], errs)
  | e :: rest =>
    let r := coerceValue schema e (path ++ "[" ++ toString idx ++ "]") errs
    let r2 := coerceItems schema rest path (idx + 1) r.2
    (r.1 :: r2.1, r2.2)
termination_by sizeOf schema + sizeOf elems
decreasing_by
  all_goals simp_wf
  all_goals omega

/-- The object-branch recursion over the declared properties: missing
required fields produce errors, present fields are coerced. -/
def coerceProps (props : List (String × JSchema)) (required : List String)
    (fields : List (String × JVal)) (path : String)
    (errs : List FieldErr) : List (String × JVal) × List FieldErr :=
  match props with
  | [] => ([], errs)
  | p :: ps =>
    let childPath := if path = "" then p.1 else path ++ "." ++ p.1
    match hv : lookupField fields p.1 with
    | none =>
      let errs1 :=
        if required.contains p.1 then
          errs ++ [⟨childPath, describeSchema p.2, "missing"⟩]
        else errs
      coerceProps ps required fields path errs1
    | some v =>
      let r := coerceValue p.2 v childPath errs
      let r2 := coerceProps ps required fields path r.2
      ((p.1, r.1) :: r2.1, r2.2)
termination_by sizeOf props + sizeOf fields
decreasing_by
  all_goals simp_wf
  all_goals
    (have h1 := sizeOf_lookupField hv
     have h2 : sizeOf p.2 < sizeOf p := by
       obtain ⟨x, y⟩ := p
       simp only [Prod.mk.sizeOf_spec]
       omega
     omega)

end

/-- validateInput: reject non-object argument payloads, run the coercer,
fail when any errors accumulated. -/
inductive ValidateOutcome
  | ok (args : JVal)
  | validationError (fields : List FieldErr)
  deriving Repr

def validateInput (schema : JSchema) (args : JVal) : ValidateOutcome :=
  if !isPlainObject args then
    .validationError [⟨"", "object", describeType args⟩]
  else
    let r := coerceValue schema args "" []
    if r.2.isEmpty then .ok r.1 else .validationError r.2

/-! ## JSON-RPC request router

Embedding of handleJsonRpc, extractId, isValidRequest, isObject and
error of McpController (the MCP JSON-RPC controller source). The tool
executor and the registry behind tools/call are passed in as
collaborators; the free-text rendering of result payloads (which
JSON.stringify would produce) is abstracted to the message string. -/

/-- A JSON-RPC id after extraction: string, number or null. -/
inductive RpcId
  | str (s : String)
  | num (n : JsNum)
  | null
  deriving Repr, DecidableEq

/-- isObject from the controller: typeof object and not null. Arrays
pass this test. -/
def isObjectJS : JVal → Bool
  | .vobj _ => true
  | .varr _ => true
  | _ => false

/-- JS property access for the envelope keys used by the router: on a
plain object, association lookup; on anything else (including arrays,
whose non-index properties are absent) undefined. -/
def jsGet (v : JVal) (k : String) : Option JVal :=
  match v with
  | .vobj fields => lookupField fields k
  | _ => none

/-- extractId from the controller: the id field when it is a string, a
number or literal null; null for any other value or an absent id or a
non-object body. -/
def extractId (body : JVal) : RpcId :=
  if !isObjectJS body then .null
  else
    match jsGet body "id" with
    | some (.vstr s) => .str s
    | some (.vnum n) => .num n
    | some .vnull => .null
    | _ => .null

/-- isValidRequest: an object body whose jsonrpc field is exactly the
string 2.0 and whose method field is a string. -/
def isValidRequest (body : JVal) : Bool :=
  isObjectJS body &&
    (match jsGet body "jsonrpc" with | some (.vstr s) => s == "2.0" | _ => false) &&
    (match jsGet body "method" with | some (.vstr _) => true | _ => false)

/-- Outcome of the tool executor as the router observes it: a payload,
a handled domain error, an auth failure, or an unexpected error. -/
inductive ExecOutcome
  | ok (text : String)
  | handled (code : ℤ) (message : String)
  | unauthorized
  | internal
  deriving Repr

/-- The collaborators the router consults while handling tools/call. -/
structure RouterDeps where
  listTools : List JVal
  toolExists : String → Bool
  exec : String → JVal → ExecOutcome

/-- A JSON-RPC response payload: a result envelope or an error object
carrying the code and message (the requestId data is in the envelope). -/
inductive RpcPayload
  | result (v : JVal)
  | err (code : ℤ) (message : String)
  deriving Repr

/-- A JSON-RPC response: the echoed id plus the payload. -/
structure RpcResponse where
  id : RpcId
  payload : RpcPayload

/-- The MCP result envelope, with text content abstracted to the
message string. -/
def mcpResultEnvelope (isError : Bool) (text : String) : JVal :=
  .vobj [("content", .varr [.vobj [("type", .vstr "text"), ("text", .vstr text)]]),
    ("isError", .vbool isError)]

def rpcErrorResponse (id : RpcId) (code : ℤ) (message : String) : RpcResponse :=
  ⟨id, .err code message⟩

/-- handleJsonRpc: best-effort id extraction, envelope validation, then
method dispatch. Every branch echoes the extracted id. -/
def handleJsonRpc (deps : RouterDeps) (body : JVal) (requestId : String) :
    RpcResponse :=
  let id := extractId body
  if !isValidRequest body then rpcErrorResponse id (-32600) "Invalid Request"
  else
    let method := match jsGet body "method" with | some (.vstr m) => m | _ => ""
    if method == "initialize" then
      ⟨id, .result (.vobj [
        ("protocolVersion", .vstr "2024-11-05"),
        ("serverInfo", .vobj [("name", .vstr "FoodieAI MCP"), ("version", .vstr "1.0.0")]),
        ("capabilities", .vobj [("tools", .vobj [])]),
        ("requestId", .vstr requestId)])⟩
    else if method == "tools/list" then
      ⟨id, .result (.vobj [("tools", .varr deps.listTools), ("requestId", .vstr requestId)])⟩
    else if method == "resources/list" then
      ⟨id, .result (.vobj [("resources", .varr []), ("requestId", .vstr requestId)])⟩
    else if method == "prompts/list" then
      ⟨id, .result (.vobj [("prompts", .varr []), ("requestId", .vstr requestId)])⟩
    else if method == "tools/call" then
      let params? := jsGet body "params"
      match params?.bind (fun p => jsGet p "name") with
      | some (.vstr name) =>
        match params?.bind (fun p => jsGet p "arguments") with
        | some args =>
          if !isObjectJS args then rpcErrorResponse id (-32600) "Invalid Request"
          else if !deps.toolExists name then rpcErrorResponse id (-32601) "NOT_FOUND"
          else
            match deps.exec name args with
            | .ok text => ⟨id, .result (mcpResultEnvelope false text)⟩
            | .handled _ message => ⟨id, .result (mcpResultEnvelope true message)⟩
            | .unauthorized => ⟨id, .result (mcpResultEnvelope true "AUTH_REQUIRED")⟩
            | .internal => ⟨id, .result (mcpResultEnvelope true "INTERNAL_ERROR")⟩
        | none => rpcErrorResponse id (-32600) "Invalid Request"
      | _ => rpcErrorResponse id (-32600) "Invalid Request"
    else rpcErrorResponse id (-32601) "Method not found"

/-! ## The recipeDraft.publish tool pipeline

The registered input schema of the recipeDraft.publish tool declares
only draftId, with additionalProperties false, so the coercer drops any
clientRequestId the caller supplies before the handler reads it. The
subsequent DraftIdDto whitelist validation cannot reintroduce a field
the coerced object does not carry, so it is not modelled separately. -/

def stringSchema : JSchema := .mk [.sString] [] none [] none none

/-- A schema whose type set is exactly number. -/
def numberSchema : JSchema := .mk [.sNumber] [] none [] none none

/-- A schema whose type set allows both number and string. -/
def numberOrStringSchema : JSchema := .mk [.sNumber, .sString] [] none [] none none

/-- The inputSchema of the recipeDraft.publish tool registration. -/
def publishInputSchema : JSchema :=
  .mk [.sObject] [("draftId", stringSchema)] none ["draftId"] (some false) none

/-- The key the publish tool handler forwards to publishDraft: the
clientRequestId it reads off the coerced argument object. -/
def publishToolKeyArg (coercedArgs : JVal) : Option String :=
  match jsGet coercedArgs "clientRequestId" with
  | some (.vstr s) => some s
  | _ => none

/-- The publish tool invocation after schema validation: extract
draftId and clientRequestId from the coerced arguments and call
publishDraft, as the registered handler does. -/
def publishToolInvoke (db : DB) (rawArgs : JVal) :
    Option (Except DraftErr (StoredResult × DB)) :=
  match validateInput publishInputSchema rawArgs with
  | .validationError _ => none
  | .ok args =>
    let draftId := match jsGet args "draftId" with | some (.vstr s) => s | _ => ""
    some (publishDraft db draftId (publishToolKeyArg args))

/-! ## Supporting lemmas -/

theorem unitToGram_ne_zero {u : String} {f : ℚ}
    (h : unitToGram u = some f) : f ≠ 0 := by
  unfold unitToGram at h
  split_ifs at h <;> (injection h with h; rw [← h]; norm_num)

theorem orElse_eq_specMacro (x y : Option ℚ) :
    (x.orElse fun _ => y) = specMacro x y := by
  cases x <;> rfl

theorem ingredientStep_eq (acc : NutTotals) (ing : NutIngredient) :
    ingredientStep acc ing =
      match specContribution ing with
      | some c => addTotals acc c
      | none => acc := by
  obtain ⟨am, un, k100, p100, f100, c100, pr⟩ := ing
  unfold ingredientStep specContribution
  cases am with
  | none => rfl
  | some amount =>
    cases un with
    | none => rfl
    | some unit =>
      cases hf : unitToGram (jsToLower unit) with
      | none => simp [hf]
      | some factor =>
        simp only [hf]
        rw [if_neg (unitToGram_ne_zero hf)]
        rw [orElse_eq_specMacro, orElse_eq_specMacro, orElse_eq_specMacro,
          orElse_eq_specMacro]
        cases specMacro k100 (pr.map (·.kcal100)) <;>
          cases specMacro p100 (pr.map (·.protein100)) <;>
          cases specMacro f100 (pr.map (·.fat100)) <;>
          cases specMacro c100 (pr.map (·.carbs100)) <;>
          simp [addTotals]

theorem addTotals_assoc (a b c : NutTotals) :
    addTotals (addTotals a b) c = addTotals a (addTotals b c) := by
  cases a; cases b; cases c
  simp [addTotals, add_assoc]

theorem zero_addTotals (a : NutTotals) : addTotals ⟨0, 0, 0, 0⟩ a = a := by
  cases a; simp [addTotals]

theorem foldl_ingredientStep (ings : List NutIngredient) (acc : NutTotals) :
    ings.foldl ingredientStep acc = addTotals acc (specTotal ings) := by
  induction ings generalizing acc with
  | nil =>
    cases acc
    simp [specTotal, addTotals]
  | cons i rest ih =>
    simp only [List.foldl_cons, ih, specTotal, List.filterMap_cons]
    rw [ingredientStep_eq]
    cases specContribution i with
    | none => rfl
    | some c => simp only [List.foldr_cons, addTotals_assoc]

theorem safeServings_eq (servings : Option ℤ) :
    (match servings with
      | some s => if 0 < s then s else 1
      | none => (1 : ℤ)) = max (servings.getD 1) 1 := by
  cases servings with
  | none => rfl
  | some s =>
    by_cases h : 0 < s <;> simp only [h, if_true, if_false, Option.getD] <;> omega

theorem lookupIdem_insert_self (db : DB) (op k id : String) (res : StoredResult)
    (h : lookupIdem db op k id = none) :
    lookupIdem (insertIdem db op k id res) op k id = some ⟨op, k, id, res⟩ := by
  unfold lookupIdem insertIdem at *
  rw [List.find?_append, h]
  simp [List.find?]

theorem le_maxInt?_getD {l : List ℤ} {x : ℤ} (hx : x ∈ l) :
    x ≤ (maxInt? l).getD 0 := by
  induction l with
  | nil => cases hx
  | cons y ys ih =>
    rw [maxInt?]
    rcases List.mem_cons.mp hx with rfl | hmem
    · cases h : maxInt? ys <;> simp [h, le_max_left]
    · have hys := ih hmem
      cases h : maxInt? ys with
      | none =>
        cases ys with
        | nil => cases hmem
        | cons a b => rw [maxInt?] at h; cases h
      | some m =>
        rw [h] at hys
        simp only [Option.getD_some] at hys ⊢
        exact le_trans hys (le_max_right y m)

theorem findByOrder_next_none (db : DB) (draftId : String) :
    db.draftIngredients.find?
      (fun i => i.draftId == draftId &&
        i.order == nextIngredientOrderTx db draftId) = none := by
  rw [List.find?_eq_none]
  intro i hi
  simp only [Bool.and_eq_true, beq_iff_eq, not_and]
  intro hdid hord
  have hmem : i.order ∈ (ingredientsOf db draftId).map (·.order) := by
    simp only [ingredientsOf, List.mem_map]
    exact ⟨i, List.mem_filter.mpr ⟨hi, by simp [hdid]⟩, rfl⟩
  have hle := le_maxInt?_getD hmem
  unfold nextIngredientOrderTx at hord
  omega

theorem find?_map_pres {α : Type} (g : α → α) (p : α → Bool)
    (hp : ∀ a, p (g a) = p a) (l : List α) :
    (l.map g).find? p = (l.find? p).map g := by
  rw [List.find?_map]
  have : (p ∘ g) = p := funext hp
  rw [this]

theorem findDraft_updateDraftRow (db : DB) (tid did : String)
    (f : RecipeDraftRow → RecipeDraftRow) (hf : ∀ d, (f d).id = d.id) :
    findDraft (updateDraftRow db tid f) did =
      (findDraft db did).map (fun d => if d.id == tid then f d else d) := by
  unfold findDraft updateDraftRow
  exact find?_map_pres _ _ (fun d => by by_cases h : d.id == tid <;> simp [h, hf]) _

theorem findDraft_congr {db1 db : DB} (h : db1.drafts = db.drafts)
    (did : String) : findDraft db1 did = findDraft db did := by
  unfold findDraft
  rw [h]

theorem recalcDraftNutrition_none (db : DB) (draftId : String)
    (h : findDraft db draftId = none) :
    recalcDraftNutrition db draftId = none := by
  unfold recalcDraftNutrition getDraftView
  rw [h]
  rfl

theorem findDraft_setDraftNutrition (db : DB) (did : String)
    (r : NutTotals × NutTotals) :
    findDraft (setDraftNutrition db did r) did =
      (findDraft db did).map (fun d => if d.id == did then
        { d with nutritionTotal := some r.1, nutritionPerServing := some r.2 }
        else d) :=
  findDraft_updateDraftRow db did did _ (fun _ => rfl)

theorem recalcDraftNutrition_some (db : DB) (draftId : String)
    (d : RecipeDraftRow) (hd : findDraft db draftId = some d) :
    ∃ view db2,
      recalcDraftNutrition db draftId = some (view, db2) ∧
      db2.draftIngredients = db.draftIngredients ∧
      db2.draftSteps = db.draftSteps ∧
      db2.recipes = db.recipes ∧
      db2.idemRecords = db.idemRecords ∧
      db2.nextId = db.nextId := by
  unfold recalcDraftNutrition getDraftView
  simp only [hd, Option.map_some', findDraft_setDraftNutrition]
  exact ⟨_, _, rfl, rfl, rfl, rfl, rfl, rfl⟩

theorem addIngredientWrite_drafts (db : DB) (draftId : String)
    (ing : AddIngredientArgs) (o : ℤ) :
    (addIngredientWrite db draftId ing o).drafts = db.drafts ∧
    (addIngredientWrite db draftId ing o).draftSteps = db.draftSteps ∧
    (addIngredientWrite db draftId ing o).recipes = db.recipes ∧
    (addIngredientWrite db draftId ing o).idemRecords = db.idemRecords := by
  unfold addIngredientWrite
  cases db.draftIngredients.find?
    (fun i => i.draftId == draftId && i.order == o) <;>
    exact ⟨rfl, rfl, rfl, rfl⟩

theorem addIngredient_run (db : DB) (draftId : String) (ing : AddIngredientArgs)
    (cri : Option String)
    (hfresh : ∀ k, resolveAddKey cri ing = some k →
      lookupIdem db opAddIngredient k draftId = none) :
    (addIngredient db draftId ing cri = .error .notFound ∧
      findDraft db draftId = none) ∨
    (∃ view db2,
      addIngredient db draftId ing cri =
        .ok (.draft view,
          (match resolveAddKey cri ing with
          | some k => insertIdem db2 opAddIngredient k draftId (.draft view)
          | none => db2)) ∧
      db2.draftIngredients =
        (addIngredientWrite db draftId ing
          (ing.order.getD (nextIngredientOrderTx db draftId))).draftIngredients ∧
      db2.idemRecords = db.idemRecords ∧
      db2.recipes = db.recipes) := by
  have hw := addIngredientWrite_drafts db draftId ing
    (ing.order.getD (nextIngredientOrderTx db draftId))
  simp only [addIngredient]
  generalize hkey : resolveAddKey cri ing = key?
  rw [hkey] at hfresh
  cases key? with
  | none =>
    cases hd : findDraft db draftId with
    | none => exact Or.inl ⟨by simp only [hd], rfl⟩
    | some d =>
      have hd1 : findDraft (addIngredientWrite db draftId ing
          (ing.order.getD (nextIngredientOrderTx db draftId))) draftId = some d := by
        rw [findDraft_congr hw.1]
        exact hd
      obtain ⟨view, db2, hrec, hIng, hSteps, hRec, hIdem, hNext⟩ :=
        recalcDraftNutrition_some _ draftId d hd1
      refine Or.inr ⟨view, db2, ?_, ?_, ?_, ?_⟩
      · simp only [hd, hrec]
      · rw [hIng]
      · rw [hIdem, hw.2.2.2]
      · rw [hRec, hw.2.2.1]
  | some k =>
    have hlk := hfresh k rfl
    cases hd : findDraft db draftId with
    | none => exact Or.inl ⟨by simp only [hlk, hd], rfl⟩
    | some d =>
      have hd1 : findDraft (addIngredientWrite db draftId ing
          (ing.order.getD (nextIngredientOrderTx db draftId))) draftId = some d := by
        rw [findDraft_congr hw.1]
        exact hd
      obtain ⟨view, db2, hrec, hIng, hSteps, hRec, hIdem, hNext⟩ :=
        recalcDraftNutrition_some _ draftId d hd1
      refine Or.inr ⟨view, db2, ?_, ?_, ?_, ?_⟩
      · simp only [hlk, hd, hrec]
      · rw [hIng]
      · rw [hIdem, hw.2.2.2]
      · rw [hRec, hw.2.2.1]

theorem removeIngredient_run (db : DB) (draftId ingredientId : String)
    (cri : Option String)
    (hfresh : ∀ k, truthyKey cri = some k →
      lookupIdem db opRemoveIngredient k draftId = none) :
    (∃ e, removeIngredient db draftId ingredientId cri = .error e) ∨
    (∃ (view : DraftView) (db2 : DB),
      removeIngredient db draftId ingredientId cri =
        .ok (.ingredientList view.ingredients,
          (match truthyKey cri with
          | some k => insertIdem db2 opRemoveIngredient k draftId
              (.ingredientList view.ingredients)
          | none => db2)) ∧
      db2.idemRecords = db.idemRecords ∧
      db2.recipes = db.recipes) := by
  simp only [removeIngredient]
  generalize hkey : truthyKey cri = key?
  rw [hkey] at hfresh
  generalize hrem : db.draftIngredients.filter
    (fun i => !(i.id == ingredientId && i.draftId == draftId)) = remaining
  cases key? with
  | none =>
    dsimp only
    by_cases hlen : (remaining.length == db.draftIngredients.length) = true
    · exact Or.inl ⟨.notFound, by rw [if_pos hlen]⟩
    · rw [if_neg hlen]
      cases hd : findDraft db draftId with
      | none =>
        exact Or.inl ⟨.notFound, by
          rw [recalcDraftNutrition_none _ _ (by rw [findDraft_congr rfl]; exact hd)]⟩
      | some d =>
        obtain ⟨view, db2, hrec, hIng, hSteps, hRec, hIdem, hNext⟩ :=
          recalcDraftNutrition_some { db with draftIngredients := remaining }
            draftId d (by rw [findDraft_congr rfl]; exact hd)
        exact Or.inr ⟨view, db2, by rw [hrec], by rw [hIdem], by rw [hRec]⟩
  | some k =>
    have hlk := hfresh k rfl
    dsimp only
    rw [hlk]
    by_cases hlen : (remaining.length == db.draftIngredients.length) = true
    · exact Or.inl ⟨.notFound, by rw [if_pos hlen]⟩
    · rw [if_neg hlen]
      cases hd : findDraft db draftId with
      | none =>
        exact Or.inl ⟨.notFound, by
          rw [recalcDraftNutrition_none _ _ (by rw [findDraft_congr rfl]; exact hd)]⟩
      | some d =>
        obtain ⟨view, db2, hrec, hIng, hSteps, hRec, hIdem, hNext⟩ :=
          recalcDraftNutrition_some { db with draftIngredients := remaining }
            draftId d (by rw [findDraft_congr rfl]; exact hd)
        exact Or.inr ⟨view, db2, by rw [hrec], by rw [hIdem], by rw [hRec]⟩

theorem setSteps_run (db : DB) (draftId : String) (steps : List String)
    (cri : Option String)
    (hfresh : ∀ k, truthyKey cri = some k →
      lookupIdem db opSetSteps k draftId = none) :
    (∃ e, setSteps db draftId steps cri = .error e) ∨
    (∃ (view : DraftView) (db2 : DB),
      setSteps db draftId steps cri =
        .ok (.stepList view.steps,
          (match truthyKey cri with
          | some k => insertIdem db2 opSetSteps k draftId (.stepList view.steps)
          | none => db2)) ∧
      db2.idemRecords = db.idemRecords ∧
      db2.recipes = db.recipes) := by
  simp only [setSteps]
  generalize hkey : truthyKey cri = key?
  rw [hkey] at hfresh
  cases key? with
  | none =>
    cases hd : findDraft db draftId with
    | none => exact Or.inl ⟨.notFound, by simp only [hd]⟩
    | some d =>
      obtain ⟨view, db2, hrec, hIng, hSteps, hRec, hIdem, hNext⟩ :=
        recalcDraftNutrition_some
          { db with
            draftSteps := db.draftSteps.filter (fun s => !(s.draftId == draftId)) ++
              steps.enum.map fun p =>
                ({ id := "row_" ++ toString (db.nextId + p.1)
                   draftId := draftId
                   order := (p.1 : ℤ) + 1
                   text := p.2 } : DraftStep)
            nextId := db.nextId + steps.length }
          draftId d (by rw [findDraft_congr rfl]; exact hd)
      refine Or.inr ⟨view, db2, ?_, by rw [hIdem], by rw [hRec]⟩
      simp only [hd, hrec]
  | some k =>
    have hlk := hfresh k rfl
    cases hd : findDraft db draftId with
    | none => exact Or.inl ⟨.notFound, by simp only [hlk, hd]⟩
    | some d =>
      obtain ⟨view, db2, hrec, hIng, hSteps, hRec, hIdem, hNext⟩ :=
        recalcDraftNutrition_some
          { db with
            draftSteps := db.draftSteps.filter (fun s => !(s.draftId == draftId)) ++
              steps.enum.map fun p =>
                ({ id := "row_" ++ toString (db.nextId + p.1)
                   draftId := draftId
                   order := (p.1 : ℤ) + 1
                   text := p.2 } : DraftStep)
            nextId := db.nextId + steps.length }
          draftId d (by rw [findDraft_congr rfl]; exact hd)
      refine Or.inr ⟨view, db2, ?_, by rw [hIdem], by rw [hRec]⟩
      simp only [hlk, hd, hrec]

theorem addIngredient_replay (db : DB) (draftId : String)
    (ing : AddIngredientArgs) (k : String) (rec : IdemRecord) (hk : k ≠ "")
    (h : lookupIdem db opAddIngredient k draftId = some rec) :
    addIngredient db draftId ing (some k) = .ok (rec.result, db) := by
  simp only [addIngredient, resolveAddKey, truthyKey, if_neg hk, h]

theorem removeIngredient_replay (db : DB) (draftId ingredientId k : String)
    (rec : IdemRecord) (hk : k ≠ "")
    (h : lookupIdem db opRemoveIngredient k draftId = some rec) :
    removeIngredient db draftId ingredientId (some k) = .ok (rec.result, db) := by
  simp only [removeIngredient, truthyKey, if_neg hk, h]

theorem setSteps_replay (db : DB) (draftId : String) (steps : List String)
    (k : String) (rec : IdemRecord) (hk : k ≠ "")
    (h : lookupIdem db opSetSteps k draftId = some rec) :
    setSteps db draftId steps (some k) = .ok (rec.result, db) := by
  simp only [setSteps, truthyKey, if_neg hk, h]

theorem publishDraft_replay (db : DB) (draftId k : String)
    (rec : IdemRecord) (hk : k ≠ "")
    (h : lookupIdem db opPublish k draftId = some rec) :
    publishDraft db draftId (some k) = .ok (rec.result, db) := by
  simp only [publishDraft, truthyKey, if_neg hk, h]

theorem publishDraft_none_eq (db : DB) (draftId : String) :
    publishDraft db draftId none =
      match publishCore db draftId with
      | .error e => .error e
      | .ok (recipe, db1) => .ok (.recipe recipe, db1) := by
  simp only [publishDraft, truthyKey]

theorem publishCore_invalid (db : DB) (draftId : String) (view : DraftView)
    (h : getDraftView db draftId = some view)
    (hv : (evaluateDraft view).isValid = false) :
    publishCore db draftId = .error (.draftIncomplete
      (evaluateDraft view).missingFields
      (evaluateDraft view).missingIngredients) := by
  simp only [publishCore, h]
  rw [if_pos hv]

theorem publishCore_valid (db : DB) (draftId : String) (view : DraftView)
    (h : getDraftView db draftId = some view)
    (hv : (evaluateDraft view).isValid = true) :
    ∃ r db1, publishCore db draftId = .ok (r, db1) := by
  simp only [publishCore, h]
  rw [if_neg (by simp [hv])]
  exact ⟨_, _, rfl⟩

theorem publishCore_records (db : DB) (draftId : String) (r : RecipeRow)
    (db1 : DB) (h : publishCore db draftId = .ok (r, db1)) :
    db1.idemRecords = db.idemRecords ∧ db1.recipes = db.recipes ++ [r] := by
  simp only [publishCore] at h
  cases hg : getDraftView db draftId with
  | none => simp only [hg] at h; cases h
  | some view =>
    simp only [hg] at h
    by_cases hv : (evaluateDraft view).isValid = false
    · rw [if_pos hv] at h
      cases h
    · rw [if_neg hv] at h
      cases h
      exact ⟨rfl, rfl⟩

theorem addIngredientWrite_fresh (db : DB) (draftId : String)
    (ing : AddIngredientArgs) :
    (addIngredientWrite db draftId ing (nextIngredientOrderTx db draftId)).draftIngredients =
      db.draftIngredients ++
        [newIngredientRow db draftId ing (nextIngredientOrderTx db draftId)] := by
  unfold addIngredientWrite
  rw [findByOrder_next_none]

theorem ingredientsOf_of_append {db2 db : DB} {did : String}
    {row : DraftIngredient}
    (h : db2.draftIngredients = db.draftIngredients ++ [row])
    (hrow : row.draftId = did) :
    ingredientsOf db2 did = ingredientsOf db did ++ [row] := by
  unfold ingredientsOf
  rw [h, List.filter_append]
  simp [hrow]

theorem ingredientsOf_congr {db2 db : DB}
    (h : db2.draftIngredients = db.draftIngredients) (did : String) :
    ingredientsOf db2 did = ingredientsOf db did := by
  unfold ingredientsOf
  rw [h]

/-! ## Claim theorems -/

/-- C3: calculateNutritionTotals sums, over exactly those ingredients
with a non-null amount, a non-null unit found in the unit-to-gram
table, and a complete macro source (per-100 values from the inline
snapshot when present, else from the linked product, skipping the
ingredient when neither supplies one), the contribution
grams * per100 / 100 with grams = amount * unitFactor, and the returned
perServing equals total / max(servings, 1), with zero or null servings
giving divisor 1. -/
theorem calculateNutritionTotals_spec (ingredients : List NutIngredient)
    (servings : Option ℤ) :
    calculateNutritionTotals ingredients servings =
      specNutrition ingredients servings := by
  unfold calculateNutritionTotals specNutrition
  rw [foldl_ingredientStep, zero_addTotals, safeServings_eq]

/-- C4: calculateTargets computes BMR as 10w + 6.25h - 5a with the
plus 5 / minus 161 sex adjustment, multiplies by the activity factor,
adds the explicit delta or the goal default (-400 LOSE, +250 GAIN, 0
otherwise), rounds to target calories, and derives protein
(round(w * 1.8) for GAIN else round(w * 1.6)), fat (round(w * 0.8)) and
carbs (max(0, round((calories - 4 protein - 9 fat) / 4))). -/
theorem calculateTargets_spec (input : TargetInput) (now : SimpleDate) :
    calculateTargets input now =
      specTargets input (calculateAgeYears input.birthDate now) := by
  obtain ⟨sex, bd, hc, w, act, goal, delta⟩ := input
  cases sex <;> cases act <;> cases goal <;> cases delta <;> rfl

/-- C9: the router extracts the id before envelope validation — the
request id when it is a string, a number or literal null, and null
otherwise (including an absent id) — and echoes this extracted id on
every response it returns, success or error, including the -32600
response for an invalid envelope. -/
theorem handleJsonRpc_echoes_id (deps : RouterDeps) (body : JVal)
    (requestId : String) :
    (handleJsonRpc deps body requestId).id = extractId body := by
  simp only [handleJsonRpc, rpcErrorResponse]
  repeat' split <;> try rfl

/-- C1: for each keyed mutating draft operation (addIngredient,
removeIngredient, setSteps, publish), when an idempotency record exists
for (operation, key, draftId) the operation returns the stored result
verbatim and leaves the database untouched; and calling addIngredient
twice with the same fresh key leaves the draft with exactly one
additional ingredient — the second call returns the first call result
on the unchanged database. createDraft takes no key, so the claim is
vacuous for it. An empty-string key is JS-falsy and is excluded. -/
theorem keyed_replay_semantics
    (db : DB) (draftId k k2 : String) (ra rr rs rp : IdemRecord)
    (ing : AddIngredientArgs) (ingredientId : String) (steps : List String)
    (d : RecipeDraftRow)
    (hk : k ≠ "") (hk2 : k2 ≠ "")
    (ha : lookupIdem db opAddIngredient k draftId = some ra)
    (hr : lookupIdem db opRemoveIngredient k draftId = some rr)
    (hs : lookupIdem db opSetSteps k draftId = some rs)
    (hp : lookupIdem db opPublish k draftId = some rp)
    (hd : findDraft db draftId = some d)
    (hfresh : lookupIdem db opAddIngredient k2 draftId = none)
    (hord : ing.order = none) :
    addIngredient db draftId ing (some k) = .ok (ra.result, db) ∧
    removeIngredient db draftId ingredientId (some k) = .ok (rr.result, db) ∧
    setSteps db draftId steps (some k) = .ok (rs.result, db) ∧
    publishDraft db draftId (some k) = .ok (rp.result, db) ∧
    ∃ res db1,
      addIngredient db draftId ing (some k2) = .ok (res, db1) ∧
      addIngredient db1 draftId ing (some k2) = .ok (res, db1) ∧
      (ingredientsOf db1 draftId).length =
        (ingredientsOf db draftId).length + 1 := by
  refine ⟨addIngredient_replay _ _ _ _ _ hk ha,
    removeIngredient_replay _ _ _ _ _ hk hr,
    setSteps_replay _ _ _ _ _ hk hs,
    publishDraft_replay _ _ _ _ hk hp, ?_⟩
  have hkey2 : resolveAddKey (some k2) ing = some k2 := by
    simp [resolveAddKey, truthyKey, hk2]
  have hfresh2 : ∀ k0, resolveAddKey (some k2) ing = some k0 →
      lookupIdem db opAddIngredient k0 draftId = none := by
    intro k0 hk0
    rw [hkey2] at hk0
    cases hk0
    exact hfresh
  rcases addIngredient_run db draftId ing (some k2) hfresh2 with
    ⟨_, hnone⟩ | ⟨view, db2, heq, hIng, hIdem, hRec⟩
  · rw [hd] at hnone; cases hnone
  · simp only [hkey2] at heq
    refine ⟨.draft view,
      insertIdem db2 opAddIngredient k2 draftId (.draft view), heq, ?_, ?_⟩
    · have hl2 : lookupIdem db2 opAddIngredient k2 draftId = none := by
        unfold lookupIdem at hfresh ⊢
        rw [hIdem]
        exact hfresh
      exact addIngredient_replay _ _ _ _ _ hk2
        (lookupIdem_insert_self db2 opAddIngredient k2 draftId (.draft view) hl2)
    · have hIng2 : db2.draftIngredients = db.draftIngredients ++
          [newIngredientRow db draftId ing (nextIngredientOrderTx db draftId)] := by
        rw [hIng, hord]
        exact addIngredientWrite_fresh db draftId ing
      have h1 : ingredientsOf (insertIdem db2 opAddIngredient k2 draftId
          (.draft view)) draftId = ingredientsOf db2 draftId :=
        ingredientsOf_congr rfl draftId
      have h2 := ingredientsOf_of_append hIng2
        (show (newIngredientRow db draftId ing
          (nextIngredientOrderTx db draftId)).draftId = draftId from rfl)
      rw [h1, h2]
      simp

/-- C2 counterexample: for publishDraft the idempotency lookup runs
before and the record insert after the transaction, so on a concrete
valid keyed publish the committed-state trace has three states, and in
the middle one the mutation is applied (a Recipe exists) while the
idempotency record is still absent — the claim says such a state is
never observable for publish. -/
theorem publish_idempotency_not_atomic :
    (publishObs exDb "d1" (some "k")).map
      (fun s => (s.recipes.length, (lookupIdem s opPublish "k" "d1").isSome)) =
      [(0, false), (1, false), (1, true)] := by decide

/-- C2 amended: for addIngredient, removeIngredient and setSteps the
idempotency lookup, the mutation and the record insert share one
transaction: the only observable states are the initial and (on
success) the final one, a failed run exposes only the initial state,
and in a successful keyed run from a record-free state the final state
holds an idempotency record storing exactly the returned result.
publishDraft is excluded: its lookup precedes and its record insert
follows its transaction. -/
theorem single_transaction_ops
    (db : DB) (draftId ingredientId : String) (ing : AddIngredientArgs)
    (steps : List String) (k : String) (hk : k ≠ "")
    (hfa : lookupIdem db opAddIngredient k draftId = none)
    (hfr : lookupIdem db opRemoveIngredient k draftId = none)
    (hfs : lookupIdem db opSetSteps k draftId = none) :
    ((∀ res db1, addIngredient db draftId ing (some k) = .ok (res, db1) →
      addIngredientObs db draftId ing (some k) = [db, db1] ∧
      ∃ rec, lookupIdem db1 opAddIngredient k draftId = some rec ∧
        rec.result = res) ∧
     (∀ e, addIngredient db draftId ing (some k) = .error e →
      addIngredientObs db draftId ing (some k) = [db])) ∧
    ((∀ res db1,
        removeIngredient db draftId ingredientId (some k) = .ok (res, db1) →
      removeIngredientObs db draftId ingredientId (some k) = [db, db1] ∧
      ∃ rec, lookupIdem db1 opRemoveIngredient k draftId = some rec ∧
        rec.result = res) ∧
     (∀ e, removeIngredient db draftId ingredientId (some k) = .error e →
      removeIngredientObs db draftId ingredientId (some k) = [db])) ∧
    ((∀ res db1, setSteps db draftId steps (some k) = .ok (res, db1) →
      setStepsObs db draftId steps (some k) = [db, db1] ∧
      ∃ rec, lookupIdem db1 opSetSteps k draftId = some rec ∧
        rec.result = res) ∧
     (∀ e, setSteps db draftId steps (some k) = .error e →
      setStepsObs db draftId steps (some k) = [db])) := by
  have hkt : truthyKey (some k) = some k := by simp [truthyKey, hk]
  refine ⟨⟨?_, ?_⟩, ⟨?_, ?_⟩, ⟨?_, ?_⟩⟩
  · intro res db1 hok
    refine ⟨by unfold addIngredientObs singleTxnObs; rw [hok], ?_⟩
    have hkey2 : resolveAddKey (some k) ing = some k := by
      simp [resolveAddKey, truthyKey, hk]
    have hfresh2 : ∀ k0, resolveAddKey (some k) ing = some k0 →
        lookupIdem db opAddIngredient k0 draftId = none := by
      intro k0 hk0
      rw [hkey2] at hk0
      cases hk0
      exact hfa
    rcases addIngredient_run db draftId ing (some k) hfresh2 with
      ⟨herr, _⟩ | ⟨view, db2, heq, hIng, hIdem, hRec⟩
    · rw [hok] at herr; cases herr
    · simp only [hkey2] at heq
      rw [hok] at heq
      obtain ⟨h1, h2⟩ := Prod.mk.injEq .. ▸ (Except.ok.inj heq)
      have hl2 : lookupIdem db2 opAddIngredient k draftId = none := by
        unfold lookupIdem at hfa ⊢
        rw [hIdem]
        exact hfa
      refine ⟨⟨opAddIngredient, k, draftId, .draft view⟩, ?_, by rw [h1]⟩
      rw [h2]
      exact lookupIdem_insert_self db2 opAddIngredient k draftId (.draft view) hl2
  · intro e herr
    unfold addIngredientObs singleTxnObs
    rw [herr]
  · intro res db1 hok
    refine ⟨by unfold removeIngredientObs singleTxnObs; rw [hok], ?_⟩
    have hfresh2 : ∀ k0, truthyKey (some k) = some k0 →
        lookupIdem db opRemoveIngredient k0 draftId = none := by
      intro k0 hk0
      rw [hkt] at hk0
      cases hk0
      exact hfr
    rcases removeIngredient_run db draftId ingredientId (some k) hfresh2 with
      ⟨e, herr⟩ | ⟨view, db2, heq, hIdem, hRec⟩
    · rw [hok] at herr; cases herr
    · simp only [hkt] at heq
      rw [hok] at heq
      obtain ⟨h1, h2⟩ := Prod.mk.injEq .. ▸ (Except.ok.inj heq)
      have hl2 : lookupIdem db2 opRemoveIngredient k draftId = none := by
        unfold lookupIdem at hfr ⊢
        rw [hIdem]
        exact hfr
      refine ⟨⟨opRemoveIngredient, k, draftId, .ingredientList view.ingredients⟩,
        ?_, by rw [h1]⟩
      rw [h2]
      exact lookupIdem_insert_self db2 opRemoveIngredient k draftId
        (.ingredientList view.ingredients) hl2
  · intro e herr
    unfold removeIngredientObs singleTxnObs
    rw [herr]
  · intro res db1 hok
    refine ⟨by unfold setStepsObs singleTxnObs; rw [hok], ?_⟩
    have hfresh2 : ∀ k0, truthyKey (some k) = some k0 →
        lookupIdem db opSetSteps k0 draftId = none := by
      intro k0 hk0
      rw [hkt] at hk0
      cases hk0
      exact hfs
    rcases setSteps_run db draftId steps (some k) hfresh2 with
      ⟨e, herr⟩ | ⟨view, db2, heq, hIdem, hRec⟩
    · rw [hok] at herr; cases herr
    · simp only [hkt] at heq
      rw [hok] at heq
      obtain ⟨h1, h2⟩ := Prod.mk.injEq .. ▸ (Except.ok.inj heq)
      have hl2 : lookupIdem db2 opSetSteps k draftId = none := by
        unfold lookupIdem at hfs ⊢
        rw [hIdem]
        exact hfs
      refine ⟨⟨opSetSteps, k, draftId, .stepList view.steps⟩, ?_, by rw [h1]⟩
      rw [h2]
      exact lookupIdem_insert_self db2 opSetSteps k draftId
        (.stepList view.steps) hl2
  · intro e herr
    unfold setStepsObs singleTxnObs
    rw [herr]

/-- C5: for every existing draft, publish throws DraftIncompleteError
exactly when the draft fails validation, carrying exactly the
missingFields and missingIngredients lists that validate returns for
that draft; when validation passes, publish succeeds with a new
Recipe. -/
theorem publish_validation_gate (db : DB) (draftId : String)
    (view : DraftView) (h : getDraftView db draftId = some view) :
    validateDraft db draftId = .ok (evaluateDraft view) ∧
    ((evaluateDraft view).isValid = false →
      publishDraft db draftId none = .error (.draftIncomplete
        (evaluateDraft view).missingFields
        (evaluateDraft view).missingIngredients)) ∧
    ((evaluateDraft view).isValid = true →
      ∃ r db1, publishDraft db draftId none = .ok (.recipe r, db1)) := by
  refine ⟨by unfold validateDraft; rw [h], ?_, ?_⟩
  · intro hv
    rw [publishDraft_none_eq, publishCore_invalid db draftId view h hv]
  · intro hv
    obtain ⟨r, db1, hr⟩ := publishCore_valid db draftId view h hv
    rw [publishDraft_none_eq, hr]
    exact ⟨r, db1, rfl⟩

/-- Filtering a list strictly shortens it when some member fails the
predicate. -/
theorem length_filter_lt_of_mem {p : α → Bool} {l : List α} {x : α}
    (hx : x ∈ l) (hpx : p x = false) : (l.filter p).length < l.length := by
  induction l with
  | nil => cases hx
  | cons a l ih =>
    rcases List.mem_cons.mp hx with rfl | hx2
    · rw [List.filter_cons]
      rw [hpx]
      simp only [Bool.false_eq_true, if_false, List.length_cons]
      exact Nat.lt_succ_of_le (List.length_filter_le p l)
    · rw [List.filter_cons]
      by_cases h : p a = true
      · rw [if_pos h]
        exact Nat.succ_lt_succ (ih hx2)
      · rw [if_neg h]
        exact Nat.lt_trans (ih hx2) (Nat.lt_succ_self _)

/-- Keeping the rows a previous filter deleted yields nothing. -/
theorem filter_of_filter_not_nil (p : α → Bool) (l : List α) :
    (l.filter fun a => !(p a)).filter p = [] := by
  rw [List.eq_nil_iff_forall_not_mem]
  intro x hx
  have h1 := List.mem_filter.mp hx
  have h2 := (List.mem_filter.mp h1.1).2
  rw [h1.2] at h2
  simp at h2

/-- C6 counterexample: a draft whose status is PUBLISHED is still
mutated by every lifecycle operation — addIngredient grows its
ingredient count from 1 to 2, removeIngredient empties it, setSteps
replaces its step list, and publishDraft produces a new Recipe from
it — while the claim says a PUBLISHED draft accepts no further
mutation. -/
theorem published_draft_still_mutable :
    (findDraft exDbPublished "d1").map (fun d => d.status) = some .PUBLISHED ∧
    (ingredientsOf exDbPublished "d1").length = 1 ∧
    (addIngredient exDbPublished "d1" exArgs none).toOption.map
      (fun r => (ingredientsOf r.2 "d1").length) = some 2 ∧
    (removeIngredient exDbPublished "d1" "i1" none).toOption.map
      (fun r => (ingredientsOf r.2 "d1").length) = some 0 ∧
    (setSteps exDbPublished "d1" ["Mix", "Bake"] none).toOption.map
      (fun r => (stepsOf r.2 "d1").map (fun s => s.text)) =
      some ["Mix", "Bake"] ∧
    (publishDraft exDbPublished "d1" none).toOption.map
      (fun r => r.2.recipes.length) = some 1 := by decide

/-- C6 amended: PUBLISHED is terminal only as an application-level
convention — no lifecycle operation inspects the status field, so on a
draft whose status is PUBLISHED: addIngredient still appends an
ingredient, removeIngredient still deletes an existing ingredient of
the draft, setSteps still replaces the draft's step list with the
given texts, and publishDraft still creates another Recipe whenever
the draft validates. -/
theorem mutations_ignore_published_status
    (db : DB) (draftId : String) (ing : AddIngredientArgs)
    (ingredientId : String) (steps : List String)
    (d : RecipeDraftRow)
    (hd : findDraft db draftId = some d)
    (hpub : d.status = .PUBLISHED)
    (hnokey : ing.clientRequestId = none)
    (hord : ing.order = none) :
    (∃ res db1, addIngredient db draftId ing none = .ok (res, db1) ∧
      (ingredientsOf db1 draftId).length =
        (ingredientsOf db draftId).length + 1) ∧
    ((∃ i ∈ db.draftIngredients, i.id = ingredientId ∧ i.draftId = draftId) →
      ∃ res db1, removeIngredient db draftId ingredientId none =
          .ok (res, db1) ∧
        db1.draftIngredients = db.draftIngredients.filter
          (fun j => !(j.id == ingredientId && j.draftId == draftId)) ∧
        db1.draftIngredients.length < db.draftIngredients.length) ∧
    (∃ res db1, setSteps db draftId steps none = .ok (res, db1) ∧
      (stepsOf db1 draftId).map (fun s => s.text) = steps) ∧
    (∀ view, getDraftView db draftId = some view →
      (evaluateDraft view).isValid = true →
      ∃ r db1, publishDraft db draftId none = .ok (.recipe r, db1) ∧
        db1.recipes.length = db.recipes.length + 1) := by
  refine ⟨?_, ?_, ?_, ?_⟩
  · have hkeynone : resolveAddKey none ing = none := by
      simp [resolveAddKey, hnokey, truthyKey]
    have hfresh : ∀ k, resolveAddKey none ing = some k →
        lookupIdem db opAddIngredient k draftId = none := by
      intro k hkk
      rw [hkeynone] at hkk
      cases hkk
    rcases addIngredient_run db draftId ing none hfresh with
      ⟨_, hnone⟩ | ⟨view, db2, heq, hIng, hIdem, hRec⟩
    · rw [hd] at hnone; cases hnone
    · simp only [hkeynone] at heq
      refine ⟨.draft view, db2, heq, ?_⟩
      have hIng2 : db2.draftIngredients = db.draftIngredients ++
          [newIngredientRow db draftId ing (nextIngredientOrderTx db draftId)] := by
        rw [hIng, hord]
        exact addIngredientWrite_fresh db draftId ing
      rw [ingredientsOf_of_append hIng2
        (show (newIngredientRow db draftId ing
          (nextIngredientOrderTx db draftId)).draftId = draftId from rfl)]
      simp
  · rintro ⟨i0, hi0, hid0, hdid0⟩
    have hlt : (db.draftIngredients.filter
        (fun j => !(j.id == ingredientId && j.draftId == draftId))).length <
        db.draftIngredients.length :=
      length_filter_lt_of_mem hi0 (by simp [hid0, hdid0])
    obtain ⟨view, db2, hrec, hIng, hSteps, hRec, hIdem, hNext⟩ :=
      recalcDraftNutrition_some
        { db with
          draftIngredients := db.draftIngredients.filter
            (fun j => !(j.id == ingredientId && j.draftId == draftId)) }
        draftId d (by rw [findDraft_congr rfl]; exact hd)
    refine ⟨.ingredientList view.ingredients, db2, ?_, ?_, ?_⟩
    · simp only [removeIngredient, truthyKey]
      rw [if_neg (by simp only [beq_iff_eq]; exact Nat.ne_of_lt hlt)]
      rw [hrec]
    · rw [hIng]
    · rw [hIng]
      exact hlt
  · obtain ⟨view, db2, hrec, hIng, hSteps, hRec, hIdem, hNext⟩ :=
      recalcDraftNutrition_some
        { db with
          draftSteps := db.draftSteps.filter (fun s => !(s.draftId == draftId)) ++
            steps.enum.map fun p =>
              ({ id := "row_" ++ toString (db.nextId + p.1)
                 draftId := draftId
                 order := (p.1 : ℤ) + 1
                 text := p.2 } : DraftStep)
          nextId := db.nextId + steps.length }
        draftId d (by rw [findDraft_congr rfl]; exact hd)
    refine ⟨.stepList view.steps, db2, ?_, ?_⟩
    · simp only [setSteps, truthyKey, hd, hrec]
    · have hs2 : stepsOf db2 draftId =
          (db.draftSteps.filter (fun s => !(s.draftId == draftId)) ++
            steps.enum.map fun p =>
              ({ id := "row_" ++ toString (db.nextId + p.1)
                 draftId := draftId
                 order := (p.1 : ℤ) + 1
                 text := p.2 } : DraftStep)).filter
            (fun s => s.draftId == draftId) := by
        unfold stepsOf
        rw [hSteps]
      rw [hs2, List.filter_append, filter_of_filter_not_nil, List.nil_append]
      have hall : ((steps.enum.map fun p =>
          ({ id := "row_" ++ toString (db.nextId + p.1)
             draftId := draftId
             order := (p.1 : ℤ) + 1
             text := p.2 } : DraftStep)).filter
            (fun s => s.draftId == draftId)) =
          steps.enum.map fun p =>
            ({ id := "row_" ++ toString (db.nextId + p.1)
               draftId := draftId
               order := (p.1 : ℤ) + 1
               text := p.2 } : DraftStep) := by
        rw [List.filter_eq_self]
        intro s hs
        obtain ⟨p, hp, hfp⟩ := List.mem_map.mp hs
        rw [← hfp]
        simp
      rw [hall, List.map_map]
      exact List.enum_map_snd steps
  · intro view hview hv
    obtain ⟨r, dbp, hr⟩ := publishCore_valid db draftId view hview hv
    refine ⟨r, dbp, ?_, ?_⟩
    · rw [publishDraft_none_eq, hr]
    · rw [(publishCore_records db draftId r dbp hr).2]
      simp

theorem orders_map_overwrite (l : List DraftIngredient) (did : String)
    (ing : AddIngredientArgs) (rid : String) :
    ((l.map (fun i => if i.id == rid then overwriteIngredientRow ing i else i)).filter
      (fun i => i.draftId == did)).map (fun i => i.order) =
    (l.filter (fun i => i.draftId == did)).map (fun i => i.order) := by
  induction l with
  | nil => rfl
  | cons a l ih =>
    simp only [List.map_cons, List.filter_cons]
    have hdid : (if a.id == rid then overwriteIngredientRow ing a else a).draftId =
        a.draftId := by
      by_cases h : (a.id == rid) = true <;> simp [h, overwriteIngredientRow]
    have hord : (if a.id == rid then overwriteIngredientRow ing a else a).order =
        a.order := by
      by_cases h : (a.id == rid) = true <;> simp [h, overwriteIngredientRow]
    rw [hdid]
    cases hc : (a.draftId == did) with
    | false =>
      simp only [hc, Bool.false_eq_true, if_false]
      exact ih
    | true =>
      simp only [hc, eq_self_iff_true, if_true]
      rw [List.map_cons, List.map_cons, hord, ih]

/-- C7: addIngredient assigns the caller-supplied order when given and
max(existing orders) + 1 otherwise (1 for a draft with no ingredients);
when an ingredient of the draft already occupies that order the new
data overwrites that row in place (same row id and order, no extra
row), otherwise a single new row with the assigned order is created —
so order stays unique per draft across every addIngredient. -/
theorem addIngredient_order_unique (db : DB) (draftId : String)
    (ing : AddIngredientArgs) (d : RecipeDraftRow)
    (hd : findDraft db draftId = some d)
    (hnokey : ing.clientRequestId = none)
    (hu : ordersUnique db draftId) :
    (ingredientsOf db draftId = [] → nextIngredientOrderTx db draftId = 1) ∧
    ∃ res db1, addIngredient db draftId ing none = .ok (res, db1) ∧
      ordersUnique db1 draftId ∧
      (match db.draftIngredients.find? (fun i => i.draftId == draftId &&
          i.order == ing.order.getD (nextIngredientOrderTx db draftId)) with
        | some row =>
          db1.draftIngredients.length = db.draftIngredients.length ∧
          overwriteIngredientRow ing row ∈ db1.draftIngredients
        | none =>
          (ingredientsOf db1 draftId).length =
            (ingredientsOf db draftId).length + 1 ∧
          newIngredientRow db draftId ing
            (ing.order.getD (nextIngredientOrderTx db draftId)) ∈
              db1.draftIngredients) := by
  constructor
  · intro hempty
    unfold nextIngredientOrderTx
    rw [hempty]
    rfl
  have hkeynone : resolveAddKey none ing = none := by
    simp [resolveAddKey, hnokey, truthyKey]
  have hfresh : ∀ k, resolveAddKey none ing = some k →
      lookupIdem db opAddIngredient k draftId = none := by
    intro k hkk
    rw [hkeynone] at hkk
    cases hkk
  rcases addIngredient_run db draftId ing none hfresh with
    ⟨_, hnone⟩ | ⟨view, db2, heq, hIng, hIdem, hRec⟩
  · rw [hd] at hnone; cases hnone
  · simp only [hkeynone] at heq
    refine ⟨.draft view, db2, heq, ?_, ?_⟩
    · unfold ordersUnique
      rw [ingredientsOf_congr hIng draftId]
      unfold addIngredientWrite
      cases hfind : db.draftIngredients.find? (fun i => i.draftId == draftId &&
          i.order == ing.order.getD (nextIngredientOrderTx db draftId)) with
      | some row =>
        show (((db.draftIngredients.map _).filter _).map _).Nodup
        rw [orders_map_overwrite]
        exact hu
      | none =>
        have happ : ({ db with
            draftIngredients := db.draftIngredients ++
              [newIngredientRow db draftId ing
                (ing.order.getD (nextIngredientOrderTx db draftId))]
            nextId := db.nextId + 1 } : DB).draftIngredients =
            db.draftIngredients ++ [newIngredientRow db draftId ing
              (ing.order.getD (nextIngredientOrderTx db draftId))] := rfl
        show ((ingredientsOf _ draftId).map _).Nodup
        rw [ingredientsOf_of_append happ
          (show (newIngredientRow db draftId ing
            (ing.order.getD (nextIngredientOrderTx db draftId))).draftId =
              draftId from rfl)]
        rw [List.map_append]
        rw [List.nodup_append]
        refine ⟨hu, List.nodup_singleton _, ?_⟩
        intro o ho hosingle
        simp only [List.map_cons, List.map_nil, List.mem_singleton,
          newIngredientRow] at hosingle
        obtain ⟨i, hi, hio⟩ := List.mem_map.mp ho
        obtain ⟨hii, hidid⟩ := List.mem_filter.mp hi
        have hnp := List.find?_eq_none.mp hfind i hii
        simp only [Bool.and_eq_true, beq_iff_eq, not_and] at hnp
        have : i.order ≠ ing.order.getD (nextIngredientOrderTx db draftId) :=
          hnp (by simpa using hidid)
        exact this (hio.trans hosingle)
    · cases hfind : db.draftIngredients.find? (fun i => i.draftId == draftId &&
          i.order == ing.order.getD (nextIngredientOrderTx db draftId)) with
      | some row =>
        constructor
        · rw [hIng]
          unfold addIngredientWrite
          rw [hfind]
          exact List.length_map _ _
        · rw [hIng]
          unfold addIngredientWrite
          rw [hfind]
          have hrowmem := List.mem_of_find?_eq_some hfind
          refine List.mem_map.mpr ⟨row, hrowmem, ?_⟩
          simp
      | none =>
        constructor
        · have hIng2 : db2.draftIngredients = db.draftIngredients ++
              [newIngredientRow db draftId ing
                (ing.order.getD (nextIngredientOrderTx db draftId))] := by
            rw [hIng]
            unfold addIngredientWrite
            rw [hfind]
          rw [ingredientsOf_of_append hIng2
            (show (newIngredientRow db draftId ing
              (ing.order.getD (nextIngredientOrderTx db draftId))).draftId =
                draftId from rfl)]
          simp
        · rw [hIng]
          unfold addIngredientWrite
          rw [hfind]
          exact List.mem_append_right _ (List.mem_singleton.mpr rfl)

/-- C8 counterexample: against a schema whose type set allows both
number and string, the numeric string 168 is not coerced to the number
168 — the number-to-string leniency immediately renders it back, so
the result is a string — and the non-numeric string abc produces no
validation error at all; the claim asserts number coercion and a got
entry for every schema whose type set allows number. -/
theorem number_string_union_not_coerced :
    describeType (coerceValue numberOrStringSchema (.vstr "168") "" []).1 =
      "string" ∧
    (coerceValue numberOrStringSchema (.vstr "168") "" []).2 = [] ∧
    describeType (coerceValue numberOrStringSchema (.vstr "abc") "" []).1 =
      "string" ∧
    (coerceValue numberOrStringSchema (.vstr "abc") "" []).2 = [] := by
  refine ⟨?_, ?_, ?_, ?_⟩ <;>
    simp only [coerceValue, numberOrStringSchema, numCoercible, stringReturn] <;>
    split <;> rfl

/-- C8 amended: for every schema whose type set allows number but not
string, a string value that is non-empty after trimming and that JS
Number parses to a finite number is coerced to that number with no
error recorded, while a string that parses to NaN is left unchanged
and records a validation error whose got field is the description of
the original type, string. -/
theorem coerce_number_only_schema
    (types : List SType) (props : List (String × JSchema))
    (items : Option JSchema) (required : List String)
    (addl : Option Bool) (enm : Option (List JVal))
    (path : String) (errs : List FieldErr) (s : String) (q : ℚ)
    (hnum : types.contains .sNumber = true)
    (hstr : types.contains .sString = false) :
    (jsTrim s ≠ "" → jsToNumber s = .fin q →
      coerceValue (.mk types props items required addl enm) (.vstr s) path errs =
        (.vnum (.fin q), errs)) ∧
    (jsToNumber s = .nan →
      coerceValue (.mk types props items required addl enm) (.vstr s) path errs =
        (.vstr s, errs ++ [⟨path, typesJoin types, "string"⟩])) := by
  constructor
  · intro htrim hq
    have hb : numCoercible types s = true := by
      unfold numCoercible
      rw [hnum, hq]
      simp [htrim]
    simp only [coerceValue, hb, if_true, hq, hstr, Bool.false_eq_true, if_false]
  · intro hnan
    have hb : numCoercible types s = false := by
      simp [numCoercible, hnan]
    simp only [coerceValue, hb, Bool.false_eq_true, if_false, hstr]

theorem coerceProps_keys (props : List (String × JSchema))
    (required : List String) (fields : List (String × JVal)) (path : String) :
    ∀ errs, ∀ kv ∈ (coerceProps props required fields path errs).1,
      ∃ p ∈ props, kv.1 = p.1 := by
  induction props with
  | nil =>
    intro errs kv hkv
    simp only [coerceProps] at hkv
    cases hkv
  | cons p ps ih =>
    intro errs kv hkv
    rw [coerceProps] at hkv
    rcases hl : lookupField fields p.1 with _ | v
    · rw [hl] at hkv
      obtain ⟨p2, hp2, hk2⟩ := ih _ kv hkv
      exact ⟨p2, List.mem_cons_of_mem _ hp2, hk2⟩
    · rw [hl] at hkv
      rcases List.mem_cons.mp hkv with rfl | hmem
      · exact ⟨p, List.mem_cons_self _ _, rfl⟩
      · obtain ⟨p2, hp2, hk2⟩ := ih _ kv hmem
        exact ⟨p2, List.mem_cons_of_mem _ hp2, hk2⟩

theorem lookupField_none_of_keys (l : List (String × JVal)) (k : String)
    (h : ∀ kv ∈ l, kv.1 ≠ k) : lookupField l k = none := by
  induction l with
  | nil => rfl
  | cons f fs ih =>
    rw [lookupField]
    rw [if_neg (by simpa using h f (List.mem_cons_self _ _))]
    exact ih (fun kv hkv => h kv (List.mem_cons_of_mem _ hkv))

/-- C10: the registered input schema of the recipeDraft.publish tool
declares only draftId with additionalProperties false, so the coercer
drops any supplied clientRequestId; hence the tool pipeline always
calls publishDraft with a null key, and a keyless publishDraft never
touches the idempotency records. -/
theorem publish_tool_never_keyed :
    (∀ (fields : List (String × JVal)) (path : String) (errs : List FieldErr),
      jsGet (coerceValue publishInputSchema (.vobj fields) path errs).1
        "clientRequestId" = none) ∧
    (∀ (db : DB) (rawArgs : JVal) (r : Except DraftErr (StoredResult × DB)),
      publishToolInvoke db rawArgs = some r →
      ∃ draftId, r = publishDraft db draftId none) ∧
    (∀ (db : DB) (draftId : String) (res : StoredResult) (db1 : DB),
      publishDraft db draftId none = .ok (res, db1) →
      db1.idemRecords = db.idemRecords) := by
  have hdrop : ∀ (fields : List (String × JVal)) (path : String)
      (errs : List FieldErr),
      jsGet (coerceValue publishInputSchema (.vobj fields) path errs).1
        "clientRequestId" = none := by
    intro fields path errs
    simp only [coerceValue, publishInputSchema]
    rw [if_pos (by decide), if_pos (by decide)]
    apply lookupField_none_of_keys
    intro kv hkv
    obtain ⟨p, hp, hkeq⟩ := coerceProps_keys _ _ fields path errs kv hkv
    rcases List.mem_cons.mp hp with rfl | hempty
    · rw [hkeq]
      decide
    · cases hempty
  refine ⟨hdrop, ?_, ?_⟩
  · intro db rawArgs r hr
    unfold publishToolInvoke at hr
    cases hv : validateInput publishInputSchema rawArgs with
    | validationError fs => rw [hv] at hr; cases hr
    | ok args =>
      rw [hv] at hr
      have hargs : publishToolKeyArg args = none := by
        unfold validateInput at hv
        cases hobj : isPlainObject rawArgs with
        | false => rw [hobj] at hv; cases hv
        | true =>
          rw [hobj] at hv
          simp only [Bool.not_true, Bool.false_eq_true, if_false] at hv
          cases rawArgs with
          | vobj fields =>
            by_cases hemp : (coerceValue publishInputSchema (.vobj fields) "" []).2.isEmpty = true
            · rw [if_pos hemp] at hv
              cases hv
              unfold publishToolKeyArg
              rw [hdrop fields "" []]
            · rw [if_neg hemp] at hv
              cases hv
          | vnull => cases hobj
          | vbool b => cases hobj
          | vnum n => cases hobj
          | vstr s => cases hobj
          | varr xs => cases hobj
      dsimp only at hr
      rw [hargs] at hr
      cases hr
      exact ⟨_, rfl⟩
  · intro db draftId res db1 h
    rw [publishDraft_none_eq] at h
    cases hc : publishCore db draftId with
    | error e => rw [hc] at h; cases h
    | ok p =>
      obtain ⟨recipe, dbx⟩ := p
      rw [hc] at h
      dsimp only at h
      cases h
      exact (publishCore_records _ _ _ _ hc).1

/-! ## Concrete witnesses -/

/-- Witness for the keyed replay theorem at a concrete database holding
records for all four operations under k1 and none under k2. -/
theorem keyed_replay_semantics_witness :
    ("k1" ≠ "" ∧ "k2" ≠ "" ∧
      lookupIdem exDbRecs opAddIngredient "k1" "d1" = some exRecAdd ∧
      lookupIdem exDbRecs opRemoveIngredient "k1" "d1" = some exRecRemove ∧
      lookupIdem exDbRecs opSetSteps "k1" "d1" = some exRecSetSteps ∧
      lookupIdem exDbRecs opPublish "k1" "d1" = some exRecPublish ∧
      findDraft exDbRecs "d1" = some exDraft ∧
      lookupIdem exDbRecs opAddIngredient "k2" "d1" = none ∧
      exArgs.order = none) ∧
    (addIngredient exDbRecs "d1" exArgs (some "k1") =
        .ok (exRecAdd.result, exDbRecs) ∧
      removeIngredient exDbRecs "d1" "i1" (some "k1") =
        .ok (exRecRemove.result, exDbRecs) ∧
      setSteps exDbRecs "d1" ["Mix"] (some "k1") =
        .ok (exRecSetSteps.result, exDbRecs) ∧
      publishDraft exDbRecs "d1" (some "k1") =
        .ok (exRecPublish.result, exDbRecs) ∧
      ∃ res db1,
        addIngredient exDbRecs "d1" exArgs (some "k2") = .ok (res, db1) ∧
        addIngredient db1 "d1" exArgs (some "k2") = .ok (res, db1) ∧
        (ingredientsOf db1 "d1").length =
          (ingredientsOf exDbRecs "d1").length + 1) :=
  ⟨⟨by decide, by decide, by decide, by decide, by decide, by decide, by decide,
      by decide, by decide⟩,
    keyed_replay_semantics exDbRecs "d1" "k1" "k2" exRecAdd exRecRemove
      exRecSetSteps exRecPublish exArgs "i1" ["Mix"] exDraft (by decide)
      (by decide) (by decide) (by decide) (by decide) (by decide) (by decide)
      (by decide) (by decide)⟩

/-- Witness for the single-transaction theorem at a concrete record-free
database. -/
theorem single_transaction_ops_witness :
    ("k" ≠ "" ∧ lookupIdem exDb opAddIngredient "k" "d1" = none ∧
      lookupIdem exDb opRemoveIngredient "k" "d1" = none ∧
      lookupIdem exDb opSetSteps "k" "d1" = none) ∧
    (∀ res db1, addIngredient exDb "d1" exArgs (some "k") = .ok (res, db1) →
      addIngredientObs exDb "d1" exArgs (some "k") = [exDb, db1] ∧
      ∃ rec, lookupIdem db1 opAddIngredient "k" "d1" = some rec ∧
        rec.result = res) :=
  ⟨⟨by decide, by decide, by decide, by decide⟩,
    fun res db1 hok =>
      (single_transaction_ops exDb "d1" "i1" exArgs ["Mix"] "k" (by decide)
        (by decide) (by decide) (by decide)).1.1 res db1 hok⟩

/-- Witness for the publish validation gate at a concrete complete
draft. -/
theorem publish_validation_gate_witness :
    getDraftView exDb "d1" = some ⟨exDraft, [exIngredient], [exStep]⟩ ∧
    validateDraft exDb "d1" =
      .ok (evaluateDraft ⟨exDraft, [exIngredient], [exStep]⟩) :=
  ⟨by decide,
    (publish_validation_gate exDb "d1" ⟨exDraft, [exIngredient], [exStep]⟩
      (by decide)).1⟩

/-- Witness for the status-blind mutation theorem at a concrete
PUBLISHED draft. -/
theorem mutations_ignore_published_status_witness :
    (findDraft exDbPublished "d1" = some { exDraft with status := .PUBLISHED } ∧
      ({ exDraft with status := .PUBLISHED } : RecipeDraftRow).status =
        .PUBLISHED ∧
      exArgs.clientRequestId = none ∧ exArgs.order = none) ∧
    (∃ res db1, addIngredient exDbPublished "d1" exArgs none = .ok (res, db1) ∧
      (ingredientsOf db1 "d1").length =
        (ingredientsOf exDbPublished "d1").length + 1) :=
  ⟨⟨by decide, by decide, by decide, by decide⟩,
    (mutations_ignore_published_status exDbPublished "d1" exArgs "i1" ["Stir"]
      { exDraft with status := .PUBLISHED } (by decide) (by decide) (by decide)
      (by decide)).1⟩

/-- Witness for the order-uniqueness theorem at a concrete draft with
one ingredient. -/
theorem addIngredient_order_unique_witness :
    (findDraft exDb "d1" = some exDraft ∧ exArgs.clientRequestId = none ∧
      ordersUnique exDb "d1") ∧
    (ingredientsOf exDb "d1" = [] → nextIngredientOrderTx exDb "d1" = 1) :=
  ⟨⟨by decide, by decide, by unfold ordersUnique; decide⟩,
    (addIngredient_order_unique exDb "d1" exArgs exDraft (by decide) (by decide)
      (by unfold ordersUnique; decide)).1⟩

/-- Witness for the number-only coercion theorem at the concrete
strings 168 and abc. -/
theorem coerce_number_only_schema_witness :
    ([SType.sNumber].contains SType.sNumber = true ∧
      [SType.sNumber].contains SType.sString = false ∧
      jsTrim "168" ≠ "" ∧ jsToNumber "168" = .fin 168 ∧
      jsToNumber "abc" = .nan) ∧
    coerceValue (.mk [.sNumber] [] none [] none none) (.vstr "168") "" [] =
      (.vnum (.fin 168), []) ∧
    coerceValue (.mk [.sNumber] [] none [] none none) (.vstr "abc") "" [] =
      (.vstr "abc", [] ++ [⟨"", typesJoin [.sNumber], "string"⟩]) :=
  ⟨⟨by decide, by decide, by decide, by decide, by decide⟩,
    (coerce_number_only_schema [.sNumber] [] none [] none none "" [] "168" 168
      (by decide) (by decide)).1 (by decide) (by decide),
    (coerce_number_only_schema [.sNumber] [] none [] none none "" [] "abc" 0
      (by decide) (by decide)).2 (by decide)⟩

/-- Witness for the keyless publish tool pipeline at a concrete
argument object that does supply a clientRequestId. -/
theorem publish_tool_never_keyed_witness :
    jsGet (coerceValue publishInputSchema
      (.vobj [("draftId", .vstr "d1"), ("clientRequestId", .vstr "k")]) "" []).1
      "clientRequestId" = none ∧
    (∀ r, publishToolInvoke exDb
      (.vobj [("draftId", .vstr "d1"), ("clientRequestId", .vstr "k")]) =
        some r → ∃ draftId, r = publishDraft exDb draftId none) :=
  ⟨publish_tool_never_keyed.1 [("draftId", .vstr "d1"),
      ("clientRequestId", .vstr "k")] "" [],
    fun r hr => publish_tool_never_keyed.2.1 exDb _ r hr⟩

end Foodie
